import Mathlib

/-!
# Verification of the concurrency-safe storage layer

This file is a shallow embedding, in Lean 4, of the core storage subsystem of
the repository: the map-based record store with legacy migration and
write-verification (`core/storage-service.ts`, class `ChromeStorageService`),
and the write-serialization queue with the atomic-operation/retry wrapper and
its metrics (`core/concurrency-service.ts`, classes `WriteQueueService` and
`ConcurrencyService`).

Modelling conventions, which apply throughout:

* `chrome.storage.local` is modelled as a pure state.  I/O is fault-free:
  `chrome.runtime.lastError` is never set, so the `reject(lastError)` branches
  of the source are unreachable in this model.  All remaining control flow
  (shape dispatch, migration, merge/replace writes, verification reads,
  retry loops, thrown errors) is transcribed from the source.
* JavaScript objects used as maps (`Record<string, T>`) are modelled as
  association lists with insertion-order semantics and unique keys, which is
  exactly the observable behaviour of JS objects with string keys.
* `Date.now()` and the random id generator `makeId` are modelled as oracle
  streams carried in the state and consumed on demand (the source evaluates
  `a || b || Date.now()` lazily, and so does the model).
* JavaScript truthiness of `x || y` on numbers (`0` falsy) and strings
  (`""` falsy) is modelled explicitly; `??` is modelled as `Option.getD`.
* Thrown errors / rejected promises are `Except.error` carrying the message
  string.  Accessing a property of a JS `null` value throws `TypeError`;
  the model raises the corresponding error exactly where the source would.
* `String.prototype.localeCompare` is modelled as code-unit lexicographic
  comparison (the spec's "id lexical order"); floating-point latency
  averages and wall-clock fields of the metrics are outside the model,
  the operation counters are modelled exactly.
* `setTimeout`-based sleeps do not alter the store and are modelled as no-ops
  in the sequential storage model; in the retry executor model the backoff
  durations are computed and returned explicitly so they can be reasoned
  about.
-/

namespace StorageCore

/-! ## JavaScript object-as-map primitives

Association lists with JS object semantics: key order is insertion order,
assigning to an existing key updates in place, `delete` removes the key.
-/

/-- Lookup of `m[k]` in a JS object modelled as an association list. -/
def lookupKey {α : Type} (m : List (String × α)) (k : String) : Option α :=
  match m with
  | [] => none
  | (k', v) :: rest => if k = k' then some v else lookupKey rest k

/-- Test for `m.hasOwnProperty(k)`. -/
def hasKey {α : Type} (m : List (String × α)) (k : String) : Bool :=
  match m with
  | [] => false
  | (k', _) :: rest => if k = k' then true else hasKey rest k

/-- JS assignment `m[k] = v`: update in place if the key exists (keeping its
position), otherwise append the new key at the end. -/
def setKey {α : Type} (m : List (String × α)) (k : String) (v : α) :
    List (String × α) :=
  match m with
  | [] => [(k, v)]
  | (k', v') :: rest =>
      if k = k' then (k, v) :: rest else (k', v') :: setKey rest k v

/-- JS `delete m[k]`: remove the key (all occurrences; keys are unique in any
state produced by JS objects). -/
def eraseKey {α : Type} (m : List (String × α)) (k : String) :
    List (String × α) :=
  match m with
  | [] => []
  | (k', v') :: rest =>
      if k = k' then eraseKey rest k else (k', v') :: eraseKey rest k

/-- JS object spread `{ ...current, ...m }`: assign every entry of `m` over
`current`, in order. -/
def jsMerge {α : Type} (current m : List (String × α)) : List (String × α) :=
  m.foldl (fun acc kv => setKey acc kv.1 kv.2) current

/-- The keys of a JS object are pairwise distinct. -/
def NodupKeys {α : Type} (m : List (String × α)) : Prop :=
  (m.map Prod.fst).Nodup

theorem lookupKey_setKey_self {α : Type} (m : List (String × α)) (k : String)
    (v : α) : lookupKey (setKey m k v) k = some v := by
  induction m with
  | nil => simp [setKey, lookupKey]
  | cons kv rest ih =>
      obtain ⟨k', v'⟩ := kv
      by_cases h : k = k' <;> simp [setKey, lookupKey, h, ih]

theorem lookupKey_setKey_other {α : Type} (m : List (String × α))
    (k j : String) (v : α) (h : j ≠ k) :
    lookupKey (setKey m k v) j = lookupKey m j := by
  induction m with
  | nil => simp [setKey, lookupKey, h]
  | cons kv rest ih =>
      obtain ⟨k', v'⟩ := kv
      by_cases hk : k = k'
      · subst hk
        simp [setKey, lookupKey, h]
      · by_cases hj : j = k' <;> simp [setKey, lookupKey, hk, hj, ih]

theorem lookupKey_eraseKey_self {α : Type} (m : List (String × α))
    (k : String) : lookupKey (eraseKey m k) k = none := by
  induction m with
  | nil => simp [eraseKey, lookupKey]
  | cons kv rest ih =>
      obtain ⟨k', v'⟩ := kv
      by_cases h : k = k'
      · simpa [eraseKey, h] using ih
      · simp [eraseKey, lookupKey, h, ih]

theorem lookupKey_eraseKey_other {α : Type} (m : List (String × α))
    (k j : String) (h : j ≠ k) :
    lookupKey (eraseKey m k) j = lookupKey m j := by
  induction m with
  | nil => simp [eraseKey, lookupKey]
  | cons kv rest ih =>
      obtain ⟨k', v'⟩ := kv
      by_cases hk : k = k'
      · subst hk
        simp [eraseKey, lookupKey, h, ih]
      · by_cases hj : j = k' <;> simp [eraseKey, lookupKey, hk, hj, ih]

theorem keys_setKey {α : Type} (m : List (String × α)) (k : String) (v : α) :
    (setKey m k v).map Prod.fst =
      if hasKey m k then m.map Prod.fst else m.map Prod.fst ++ [k] := by
  induction m with
  | nil => simp [setKey, hasKey]
  | cons kv rest ih =>
      obtain ⟨k', v'⟩ := kv
      by_cases h : k = k'
      · subst h
        simp [setKey, hasKey]
      · simp only [setKey, hasKey, if_neg h, List.map_cons]
        rw [ih]
        by_cases hrest : hasKey rest k <;> simp [hrest]

theorem hasKey_iff_mem {α : Type} (m : List (String × α)) (k : String) :
    hasKey m k = true ↔ k ∈ m.map Prod.fst := by
  induction m with
  | nil => simp [hasKey]
  | cons kv rest ih =>
      obtain ⟨k', v'⟩ := kv
      by_cases h : k = k' <;> simp [hasKey, h, ih]

theorem lookupKey_eq_none_of_not_mem {α : Type} (m : List (String × α))
    (k : String) (h : k ∉ m.map Prod.fst) : lookupKey m k = none := by
  induction m with
  | nil => simp [lookupKey]
  | cons kv rest ih =>
      obtain ⟨k', v'⟩ := kv
      simp only [List.map_cons, List.mem_cons, not_or] at h
      simp [lookupKey, h.1, ih h.2]

theorem nodupKeys_setKey {α : Type} (m : List (String × α)) (k : String)
    (v : α) (h : NodupKeys m) : NodupKeys (setKey m k v) := by
  unfold NodupKeys at *
  rw [keys_setKey]
  by_cases hk : hasKey m k
  · simpa [hk] using h
  · have hmem : k ∉ m.map Prod.fst := fun hc =>
      hk ((hasKey_iff_mem m k).mpr hc)
    rw [if_neg hk, List.nodup_append]
    exact ⟨h, List.nodup_singleton k, fun a ha hb => by
      simp only [List.mem_singleton] at hb
      subst hb
      exact hmem ha⟩

/-- Last-written-wins lookup through a JS merge: the spread source `m` wins,
otherwise the base object `current` answers. -/
theorem lookupKey_jsMerge {α : Type} (m current : List (String × α))
    (k : String) (hm : NodupKeys m) :
    lookupKey (jsMerge current m) k =
      match lookupKey m k with
      | some v => some v
      | none => lookupKey current k := by
  induction m generalizing current with
  | nil => simp [jsMerge, lookupKey]
  | cons kv rest ih =>
      obtain ⟨k', v'⟩ := kv
      simp only [NodupKeys, List.map_cons, List.nodup_cons] at hm
      have hrest : NodupKeys rest := hm.2
      have hnotin : k' ∉ rest.map Prod.fst := hm.1
      show lookupKey (jsMerge (setKey current k' v') rest) k = _
      rw [ih (setKey current k' v') hrest]
      by_cases h : k = k'
      · subst h
        have hnone : lookupKey rest k = none :=
          lookupKey_eq_none_of_not_mem rest k hnotin
        simp [lookupKey, hnone, lookupKey_setKey_self]
      · simp [lookupKey, h, lookupKey_setKey_other current k' k v' h]

/-! ## Id ordering

`a.id.localeCompare(b.id)` is modelled as code-unit lexicographic comparison
of the id strings (the spec's "id lexical order").
-/

/-- Lexicographic less-or-equal on character lists. -/
def lexLeB : List Char → List Char → Bool
  | [], _ => true
  | _ :: _, [] => false
  | a :: as, b :: bs => if a < b then true else if b < a then false else lexLeB as bs

/-- The tie-break order on record ids: `localeCompare(a, b) <= 0` modelled as
code-unit lexicographic comparison. -/
def idLe (a b : String) : Prop := lexLeB a.data b.data = true

instance : DecidableRel idLe := fun a b => by unfold idLe; exact inferInstance

theorem lexLeB_total (a b : List Char) : lexLeB a b = true ∨ lexLeB b a = true := by
  induction a generalizing b with
  | nil => left; rfl
  | cons x xs ih =>
      cases b with
      | nil => right; rfl
      | cons y ys =>
          rcases lt_trichotomy x y with h | h | h
          · left; simp [lexLeB, h]
          · subst h
            rcases ih ys with h2 | h2
            · left; simp [lexLeB, lt_irrefl, h2]
            · right; simp [lexLeB, lt_irrefl, h2]
          · right; simp [lexLeB, h]

theorem lexLeB_trans {a b c : List Char} (hab : lexLeB a b = true)
    (hbc : lexLeB b c = true) : lexLeB a c = true := by
  induction a generalizing b c with
  | nil => rfl
  | cons x xs ih =>
      cases b with
      | nil => simp [lexLeB] at hab
      | cons y ys =>
          cases c with
          | nil => simp [lexLeB] at hbc
          | cons z zs =>
              simp only [lexLeB] at hab hbc ⊢
              rcases lt_trichotomy x y with hxy | hxy | hxy
              · rcases lt_trichotomy y z with hyz | hyz | hyz
                · simp [lt_trans hxy hyz]
                · subst hyz; simp [hxy]
                · rw [if_neg (asymm hyz), if_pos hyz] at hbc; exact absurd hbc (by simp)
              · subst hxy
                rw [if_neg (lt_irrefl x), if_neg (lt_irrefl x)] at hab
                rcases lt_trichotomy x z with hyz | hyz | hyz
                · simp [hyz]
                · subst hyz
                  rw [if_neg (lt_irrefl x), if_neg (lt_irrefl x)] at hbc ⊢
                  exact ih hab hbc
                · rw [if_neg (asymm hyz), if_pos hyz] at hbc; exact absurd hbc (by simp)
              · rw [if_neg (asymm hxy), if_pos hxy] at hab; exact absurd hab (by simp)

theorem idLe_total (a b : String) : idLe a b ∨ idLe b a := lexLeB_total a.data b.data

theorem idLe_trans {a b c : String} (hab : idLe a b) (hbc : idLe b c) : idLe a c :=
  lexLeB_trans hab hbc

/-! ## Data model (`core/types.ts` and `core/storage-service.ts`)

`Prompt` and `Context` are the public record payloads; `PromptRecord` and
`ContextRecord` are the canonical records persisted in the two backing maps.
Optional JS fields are `Option`s.
-/

/-- Public prompt payload (`core/types.ts`, interface `Prompt`). -/
structure Prompt where
  id : String
  name : String
  template : String
  description : String
  createdAt : Option Nat
  updatedAt : Option Nat
deriving Repr, DecidableEq

/-- Public context payload (`core/types.ts`, interface `Context`). -/
structure Context where
  id : String
  name : String
  text : String
  createdAt : Option Nat
  updatedAt : Option Nat
deriving Repr, DecidableEq

/-- Canonical prompt record stored under the `prompts` key. -/
structure PromptRecord where
  id : String
  name : String
  template : String
  description : Option String
  createdAt : Option Nat
  updatedAt : Option Nat
deriving Repr, DecidableEq

/-- Canonical context record stored under the `contexts` key. -/
structure ContextRecord where
  id : String
  name : String
  text : String
  createdAt : Option Nat
  updatedAt : Option Nat
deriving Repr, DecidableEq

/-- The prompts map as persisted (JS object keyed by id). -/
abbrev PMap := List (String × PromptRecord)

/-- The contexts map as persisted (JS object keyed by id). -/
abbrev CMap := List (String × ContextRecord)

/-- A raw item of the legacy array format for prompts.  An absent or empty
id / a missing or zero timestamp is falsy in the `item.x || fallback`
expressions of the migration code, so falsiness is modelled by `""` and by
`none`/`some 0` respectively. -/
structure PLegacy where
  id : String
  name : String
  template : String
  description : Option String
  createdAt : Option Nat
  updatedAt : Option Nat
deriving Repr, DecidableEq

/-- A raw item of the legacy array format for contexts. -/
structure CLegacy where
  id : String
  name : String
  text : String
  createdAt : Option Nat
  updatedAt : Option Nat
deriving Repr, DecidableEq

/-- Possible backing values stored under `chrome.storage.local.prompts`.
`absent` is an unset key (`undefined`), `nullVal` is a stored JS `null`,
`prim` is any primitive (boolean, number or string), `arr` is the legacy
array format and `mapVal` is the canonical object map. -/
inductive PVal where
  | absent
  | nullVal
  | prim
  | arr (items : List PLegacy)
  | mapVal (m : PMap)
deriving Repr, DecidableEq

/-- Possible backing values stored under `chrome.storage.local.contexts`. -/
inductive CVal where
  | absent
  | nullVal
  | prim
  | arr (items : List CLegacy)
  | mapVal (m : CMap)
deriving Repr, DecidableEq

/-- The whole modelled world: the two backing keys of
`chrome.storage.local`, the console (warnings logged so far), and the two
oracle streams for `Date.now()` and `makeId()`. -/
structure St where
  prompts : PVal
  contexts : CVal
  console : List String
  times : List Nat
  ids : List String
deriving Repr, DecidableEq

deriving instance DecidableEq for Except

/-- State-and-exception monad for the storage layer: a rejected promise is
`Except.error` carrying the error message, and state changes made before a
throw persist (JS semantics). -/
def M (α : Type) : Type := St → Except String α × St

instance : Monad M where
  pure a := fun s => (Except.ok a, s)
  bind m f := fun s =>
    match m s with
    | (Except.ok a, s') => f a s'
    | (Except.error e, s') => (Except.error e, s')

/-- Throw (reject) with a message. -/
def mthrow {α : Type} (e : String) : M α := fun s => (Except.error e, s)

/-- JS `try { body } catch (err) { handler }`: state mutations made by `body`
before the throw are kept. -/
def mtry {α : Type} (body : M α) (handler : String → M α) : M α := fun s =>
  match body s with
  | (Except.error e, s') => handler e s'
  | r => r

/-- One call of `Date.now()`: consumes the head of the time oracle stream. -/
def getNow : M Nat := fun s => (Except.ok (s.times.headD 0), { s with times := s.times.tail })

/-- One call of `makeId()`: consumes the head of the id oracle stream. -/
def makeId : M String := fun s => (Except.ok (s.ids.headD "gen-id"), { s with ids := s.ids.tail })

theorem run_bind {α β : Type} (m : M α) (f : α → M β) (s : St) :
    (m >>= f) s =
      match m s with
      | (Except.ok a, s') => f a s'
      | (Except.error e, s') => (Except.error e, s') := rfl

theorem run_pure {α : Type} (a : α) (s : St) :
    (pure a : M α) s = (Except.ok a, s) := rfl

theorem run_mtry {α : Type} (body : M α) (handler : String → M α) (s : St) :
    mtry body handler s =
      match body s with
      | (Except.error e, s') => handler e s'
      | r => r := rfl

/-! ## ChromeStorageService: prompt operations (`core/storage-service.ts`) -/

/-- Warning printed by `readPromptsMap` on an unexpected value shape. -/
def promptsWarn : String :=
  "ChromeStorageService: unexpected prompts value, returning empty map."

/-- Warning printed by `readContextsMap` on an unexpected value shape. -/
def contextsWarn : String :=
  "ChromeStorageService: unexpected contexts value, returning empty map."

/-- Error raised by JS when a property of `null` is accessed (the fate of
every caller that touches the result of a read that resolved `null`). -/
def typeErrorNull : String := "TypeError: cannot read properties of null"

/-- JS truthiness filter for numeric `x || y`: `0`, like `undefined`, falls
through to the fallback. -/
def truthyNat : Option Nat → Option Nat
  | none => none
  | some n => if n = 0 then none else some n

/-- First property access on the value a read resolved: a real object map
passes through, the JS `null` value throws a `TypeError`. -/
def asObject {α : Type} (r : Option α) : M α :=
  match r with
  | some m => pure m
  | none => mthrow typeErrorNull

/-- Transcription of `writePromptsMap(map, replace)` (storage-service.ts,
lines 193-220): `replace = true` persists the caller's map verbatim;
otherwise the caller's map is `{ ...current, ...map }`-merged over the
latest stored value (a stored value that is not a non-array object
contributes `{}`). The `lastError` rejection branches are unreachable in
the fault-free I/O model. -/
def writePromptsMap (m : PMap) (replace : Bool) : M Unit := fun s =>
  if replace then (Except.ok (), { s with prompts := PVal.mapVal m })
  else
    let current : PMap :=
      match s.prompts with
      | PVal.mapVal c => c
      | _ => []
    (Except.ok (), { s with prompts := PVal.mapVal (jsMerge current m) })

/-- Migration of one legacy array item (storage-service.ts, lines 170-174):
`item.id || makeId()`, `item.createdAt || Date.now()`,
`item.updatedAt || createdAt`. -/
def migratePromptItem (acc : PMap) (item : PLegacy) : M PMap := do
  let id ← (if item.id = "" then makeId else pure item.id)
  let createdAt ← (match truthyNat item.createdAt with
    | some c => pure c
    | none => getNow)
  pure (setKey acc id
    { id := id, name := item.name, template := item.template,
      description := item.description, createdAt := some createdAt,
      updatedAt := some ((truthyNat item.updatedAt).getD createdAt) })

/-- Transcription of `readPromptsMap()` (storage-service.ts, lines 156-191).
The promise resolves with the raw value of the object branch, so the result
is `Option PMap`: `none` models resolving the JS `null` value, which passes
the `typeof val === 'object' && !Array.isArray(val)` check and is returned
as-is. An absent key resolves the empty map; a legacy array is migrated and
persisted (merge write); any other primitive logs a warning and resolves
the empty map. -/
def readPromptsMap : M (Option PMap) := fun s =>
  match s.prompts with
  | PVal.absent => (Except.ok (some []), s)
  | PVal.nullVal => (Except.ok none, s)
  | PVal.prim =>
      (Except.ok (some []), { s with console := s.console ++ [promptsWarn] })
  | PVal.mapVal m => (Except.ok (some m), s)
  | PVal.arr items =>
      (do
        let m ← items.foldlM migratePromptItem []
        writePromptsMap m false
        pure (some m)) s

/-- Sort key of a listed prompt: `map[a.id]?.createdAt ?? 0`. -/
def promptKey (m : PMap) (a : Prompt) : Nat :=
  ((lookupKey m a.id).bind PromptRecord.createdAt).getD 0

/-- The comparator of `getPrompts` as a relation: ascending `createdAt`
looked up in the map, ties broken by id lexical order. -/
def promptLE (m : PMap) (a b : Prompt) : Prop :=
  promptKey m a < promptKey m b ∨ (promptKey m a = promptKey m b ∧ idLe a.id b.id)

instance (m : PMap) : DecidableRel (promptLE m) := fun a b => by
  unfold promptLE
  exact inferInstance

/-- Projection of a stored record to the public payload (`getPrompts` maps
records to `{id, name, template, description: r.description || ''}` without
timestamps). -/
def toPrompt (r : PromptRecord) : Prompt :=
  { id := r.id, name := r.name, template := r.template,
    description := r.description.getD "", createdAt := none, updatedAt := none }

/-- The pure list computation of `getPrompts` given the map it read:
`Object.values(map)` projected and sorted with the comparator.  JS
`Array.prototype.sort` with a consistent comparator is modelled by a stable
insertion sort, which produces the same list. -/
def sortedPrompts (m : PMap) : List Prompt :=
  List.insertionSort (promptLE m) ((m.map Prod.snd).map toPrompt)

/-- Transcription of `getPrompts()` (storage-service.ts, lines 223-233). -/
def getPrompts : M (List Prompt) := do
  let r ← readPromptsMap
  let m ← asObject r
  pure (sortedPrompts m)

/-- The `createdAt` determination shared by all save paths:
`prev?.createdAt || prompt.createdAt || Date.now()` with JS truthiness
(`0`, like `undefined`, falls through), `Date.now()` evaluated lazily. -/
def resolveCreatedAt (prevCA pCA : Option Nat) : M Nat :=
  match truthyNat prevCA with
  | some c => pure c
  | none =>
      match truthyNat pCA with
      | some c => pure c
      | none => getNow

/-- One attempt of the `savePrompt` retry loop (storage-service.ts, lines
239-252): read, compute `createdAt` with the truthiness fallback chain
`prev?.createdAt || prompt.createdAt || Date.now()`, merge the caller's
fields, merge-write, and verify by re-reading.  Returns `none` on success
and the retryable message when the verification read misses the id. -/
def savePromptBody (p : Prompt) (id : String) : M (Option String) := do
  let r ← readPromptsMap
  let m ← asObject r
  let prev := lookupKey m id
  let createdAt ← resolveCreatedAt (prev.bind PromptRecord.createdAt) p.createdAt
  let nowU ← getNow
  let rcd : PromptRecord :=
    { id := id, name := p.name, template := p.template,
      description := some p.description, createdAt := some createdAt,
      updatedAt := some nowU }
  writePromptsMap (setKey m id rcd) false
  let r2 ← readPromptsMap
  let after ← asObject r2
  match lookupKey after id with
  | none => pure (some "write did not persist entry, retrying")
  | some _ => pure none

/-- The bounded retry loop of `savePrompt` (three attempts, small fixed
backoff modelled as a no-op, last error threaded into the final message). -/
def savePromptGo (p : Prompt) (id : String) : Nat → Option String → M Unit
  | 0, lastErr =>
      mthrow ("savePrompt failed after retries: " ++ (lastErr.getD "null"))
  | n + 1, _ => do
      let r : Sum (Option String) String ←
        mtry (do
            let res ← savePromptBody p id
            pure (Sum.inl res))
          (fun e => pure (Sum.inr e))
      match r with
      | Sum.inl none => pure ()
      | Sum.inl (some msg) => savePromptGo p id n (some msg)
      | Sum.inr e => savePromptGo p id n (some e)

/-- Transcription of `savePrompt(prompt)` (storage-service.ts, lines
235-261). -/
def savePrompt (p : Prompt) : M Unit := do
  let id ← (if p.id = "" then makeId else pure p.id)
  savePromptGo p id 3 none

/-- One attempt of the `deletePrompt` retry loop (storage-service.ts, lines
266-277): read, drop the key if present, write back with the DEFAULT merge
mode (`writePromptsMap(map)`, `replace` defaulting to `false`), and verify
the id is gone. -/
def deletePromptBody (id : String) : M (Option String) := do
  let r ← readPromptsMap
  let m ← asObject r
  let m1 := if hasKey m id then eraseKey m id else m
  writePromptsMap m1 false
  let r2 ← readPromptsMap
  let after ← asObject r2
  match lookupKey after id with
  | some _ => pure (some "delete did not persist, retrying")
  | none => pure none

/-- The bounded retry loop of `deletePrompt`. -/
def deletePromptGo (id : String) : Nat → Option String → M Unit
  | 0, lastErr =>
      mthrow ("deletePrompt failed after retries: " ++ (lastErr.getD "null"))
  | n + 1, _ => do
      let r : Sum (Option String) String ←
        mtry (do
            let res ← deletePromptBody id
            pure (Sum.inl res))
          (fun e => pure (Sum.inr e))
      match r with
      | Sum.inl none => pure ()
      | Sum.inl (some msg) => deletePromptGo id n (some msg)
      | Sum.inr e => deletePromptGo id n (some e)

/-- Transcription of `deletePrompt(id)` (storage-service.ts, lines 263-285). -/
def deletePrompt (id : String) : M Unit := deletePromptGo id 3 none

/-- The cause string of the retry executor's final error:
`lastError?.message || 'Unknown error'`. -/
def retryCause : Option String → String
  | none => "Unknown error"
  | some m => if m = "" then "Unknown error" else m

/-- `ConcurrencyService.executeWithRetry` specialised to the sequential
storage model (concurrency-service.ts, lines 294-322): up to `maxR`
attempts of `body`, rethrowing the aggregate error after exhaustion.
Backoff sleeps do not touch the store; metrics are modelled separately in
the queue model. -/
def retryGo {α : Type} (maxR : Nat) (body : M α) : Nat → Option String → M α
  | 0, lastErr =>
      mthrow ("Operation failed after " ++ toString maxR ++ " attempts: " ++
        retryCause lastErr)
  | n + 1, _ => mtry body (fun e => retryGo maxR body n (some e))

/-- `ConcurrencyService.executeAtomicWithRetry` in the sequential storage
model: the whole retry loop runs as one queue entry, and with a single
caller the queue adds nothing, so it is the retry loop with the default
`maxRetries = 3` (`DEFAULT_CONCURRENCY_CONFIG`). -/
def executeAtomicWithRetryM {α : Type} (body : M α) : M α := retryGo 3 body 3 none

/-- The operation closure submitted by `savePromptAtomic` (storage-service.ts,
lines 290-311); note the id is (re)computed inside the closure and the
write is a MERGE write, verification failure throws. -/
def savePromptAtomicOp (p : Prompt) : M Unit := do
  let id ← (if p.id = "" then makeId else pure p.id)
  let r ← readPromptsMap
  let m ← asObject r
  let prev := lookupKey m id
  let createdAt ← resolveCreatedAt (prev.bind PromptRecord.createdAt) p.createdAt
  let nowU ← getNow
  let rcd : PromptRecord :=
    { id := id, name := p.name, template := p.template,
      description := some p.description, createdAt := some createdAt,
      updatedAt := some nowU }
  writePromptsMap (setKey m id rcd) false
  let r2 ← readPromptsMap
  let after ← asObject r2
  match lookupKey after id with
  | none => mthrow "Atomic write verification failed"
  | some _ => pure ()

/-- Transcription of `savePromptAtomic(prompt)` with a configured
concurrency service (storage-service.ts, lines 288-316). -/
def savePromptAtomic (p : Prompt) : M Unit :=
  executeAtomicWithRetryM (savePromptAtomicOp p)

/-- The operation closure submitted by `deletePromptAtomic`
(storage-service.ts, lines 320-333): if the id is present the map copy is
written back with `replace = true`, then the deletion is verified; an
absent id is a no-op. -/
def deletePromptAtomicOp (id : String) : M Unit := do
  let r ← readPromptsMap
  let m ← asObject r
  if hasKey m id then do
    writePromptsMap (eraseKey m id) true
    let r2 ← readPromptsMap
    let after ← asObject r2
    match lookupKey after id with
    | some _ => mthrow "Atomic delete verification failed"
    | none => pure ()
  else pure ()

/-- Transcription of `deletePromptAtomic(id)` with a configured concurrency
service (storage-service.ts, lines 318-338). -/
def deletePromptAtomic (id : String) : M Unit :=
  executeAtomicWithRetryM (deletePromptAtomicOp id)

/-! ## ChromeStorageService: context operations

The context half of the service (storage-service.ts, lines 341-522) is the
same algorithm over the `contexts` key with the `text` payload field. -/

/-- Transcription of `writeContextsMap(map, replace)` (lines 378-405). -/
def writeContextsMap (m : CMap) (replace : Bool) : M Unit := fun s =>
  if replace then (Except.ok (), { s with contexts := CVal.mapVal m })
  else
    let current : CMap :=
      match s.contexts with
      | CVal.mapVal c => c
      | _ => []
    (Except.ok (), { s with contexts := CVal.mapVal (jsMerge current m) })

/-- Migration of one legacy array item for contexts (lines 355-358). -/
def migrateContextItem (acc : CMap) (item : CLegacy) : M CMap := do
  let id ← (if item.id = "" then makeId else pure item.id)
  let createdAt ← (match truthyNat item.createdAt with
    | some c => pure c
    | none => getNow)
  pure (setKey acc id
    { id := id, name := item.name, text := item.text,
      createdAt := some createdAt,
      updatedAt := some ((truthyNat item.updatedAt).getD createdAt) })

/-- Transcription of `readContextsMap()` (lines 341-376); shape dispatch as
in `readPromptsMap`. -/
def readContextsMap : M (Option CMap) := fun s =>
  match s.contexts with
  | CVal.absent => (Except.ok (some []), s)
  | CVal.nullVal => (Except.ok none, s)
  | CVal.prim =>
      (Except.ok (some []), { s with console := s.console ++ [contextsWarn] })
  | CVal.mapVal m => (Except.ok (some m), s)
  | CVal.arr items =>
      (do
        let m ← items.foldlM migrateContextItem []
        writeContextsMap m false
        pure (some m)) s

/-- Sort key of a listed context: `map[a.id]?.createdAt ?? 0`. -/
def contextKey (m : CMap) (a : Context) : Nat :=
  ((lookupKey m a.id).bind ContextRecord.createdAt).getD 0

/-- The comparator of `getContexts` as a relation. -/
def contextLE (m : CMap) (a b : Context) : Prop :=
  contextKey m a < contextKey m b ∨
    (contextKey m a = contextKey m b ∧ idLe a.id b.id)

instance (m : CMap) : DecidableRel (contextLE m) := fun a b => by
  unfold contextLE
  exact inferInstance

/-- Projection of a stored context record to the public payload. -/
def toContext (r : ContextRecord) : Context :=
  { id := r.id, name := r.name, text := r.text,
    createdAt := none, updatedAt := none }

/-- The pure list computation of `getContexts` given the map it read. -/
def sortedContexts (m : CMap) : List Context :=
  List.insertionSort (contextLE m) ((m.map Prod.snd).map toContext)

/-- Transcription of `getContexts()` (lines 407-417). -/
def getContexts : M (List Context) := do
  let r ← readContextsMap
  let m ← asObject r
  pure (sortedContexts m)

/-- One attempt of the `saveContext` retry loop (lines 423-436). -/
def saveContextBody (c : Context) (id : String) : M (Option String) := do
  let r ← readContextsMap
  let m ← asObject r
  let prev := lookupKey m id
  let createdAt ← resolveCreatedAt (prev.bind ContextRecord.createdAt) c.createdAt
  let nowU ← getNow
  let rcd : ContextRecord :=
    { id := id, name := c.name, text := c.text,
      createdAt := some createdAt, updatedAt := some nowU }
  writeContextsMap (setKey m id rcd) false
  let r2 ← readContextsMap
  let after ← asObject r2
  match lookupKey after id with
  | none => pure (some "write did not persist entry, retrying")
  | some _ => pure none

/-- The bounded retry loop of `saveContext`. -/
def saveContextGo (c : Context) (id : String) : Nat → Option String → M Unit
  | 0, lastErr =>
      mthrow ("saveContext failed after retries: " ++ (lastErr.getD "null"))
  | n + 1, _ => do
      let r : Sum (Option String) String ←
        mtry (do
            let res ← saveContextBody c id
            pure (Sum.inl res))
          (fun e => pure (Sum.inr e))
      match r with
      | Sum.inl none => pure ()
      | Sum.inl (some msg) => saveContextGo c id n (some msg)
      | Sum.inr e => saveContextGo c id n (some e)

/-- Transcription of `saveContext(context)` (lines 419-445). -/
def saveContext (c : Context) : M Unit := do
  let id ← (if c.id = "" then makeId else pure c.id)
  saveContextGo c id 3 none

/-- One attempt of the `deleteContext` retry loop (lines 450-461): again the
write-back uses the DEFAULT merge mode. -/
def deleteContextBody (id : String) : M (Option String) := do
  let r ← readContextsMap
  let m ← asObject r
  let m1 := if hasKey m id then eraseKey m id else m
  writeContextsMap m1 false
  let r2 ← readContextsMap
  let after ← asObject r2
  match lookupKey after id with
  | some _ => pure (some "delete did not persist, retrying")
  | none => pure none

/-- The bounded retry loop of `deleteContext`. -/
def deleteContextGo (id : String) : Nat → Option String → M Unit
  | 0, lastErr =>
      mthrow ("deleteContext failed after retries: " ++ (lastErr.getD "null"))
  | n + 1, _ => do
      let r : Sum (Option String) String ←
        mtry (do
            let res ← deleteContextBody id
            pure (Sum.inl res))
          (fun e => pure (Sum.inr e))
      match r with
      | Sum.inl none => pure ()
      | Sum.inl (some msg) => deleteContextGo id n (some msg)
      | Sum.inr e => deleteContextGo id n (some e)

/-- Transcription of `deleteContext(id)` (lines 447-469). -/
def deleteContext (id : String) : M Unit := deleteContextGo id 3 none

/-- The operation closure submitted by `saveContextAtomic` (lines 474-495). -/
def saveContextAtomicOp (c : Context) : M Unit := do
  let id ← (if c.id = "" then makeId else pure c.id)
  let r ← readContextsMap
  let m ← asObject r
  let prev := lookupKey m id
  let createdAt ← resolveCreatedAt (prev.bind ContextRecord.createdAt) c.createdAt
  let nowU ← getNow
  let rcd : ContextRecord :=
    { id := id, name := c.name, text := c.text,
      createdAt := some createdAt, updatedAt := some nowU }
  writeContextsMap (setKey m id rcd) false
  let r2 ← readContextsMap
  let after ← asObject r2
  match lookupKey after id with
  | none => mthrow "Atomic write verification failed"
  | some _ => pure ()

/-- Transcription of `saveContextAtomic(context)` with a configured
concurrency service (lines 472-500). -/
def saveContextAtomic (c : Context) : M Unit :=
  executeAtomicWithRetryM (saveContextAtomicOp c)

/-- The operation closure submitted by `deleteContextAtomic` (lines
504-517): replace-write, verified, no-op when absent. -/
def deleteContextAtomicOp (id : String) : M Unit := do
  let r ← readContextsMap
  let m ← asObject r
  if hasKey m id then do
    writeContextsMap (eraseKey m id) true
    let r2 ← readContextsMap
    let after ← asObject r2
    match lookupKey after id with
    | some _ => mthrow "Atomic delete verification failed"
    | none => pure ()
  else pure ()

/-- Transcription of `deleteContextAtomic(id)` with a configured concurrency
service (lines 502-522). -/
def deleteContextAtomic (id : String) : M Unit :=
  executeAtomicWithRetryM (deleteContextAtomicOp id)

/-! ## Retry executor (`core/concurrency-service.ts`, ConcurrencyService)

`executeWithRetry` as a pure function.  The operation is modelled as a
function from the attempt number (1-based) to its outcome on that attempt;
the result also reports how many attempts were performed and the list of
backoff delays awaited between consecutive attempts, in order. -/

/-- Transcription of `calculateBackoffDelay(attempt, baseDelay, maxDelay)`
(concurrency-service.ts, lines 126-129): exponential backoff capped at the
maximum.  Only called with `attempt >= 1`. -/
def calculateBackoffDelay (attempt base maxD : Nat) : Nat :=
  min (base * 2 ^ (attempt - 1)) maxD

/-- The aggregate error thrown after exhausting the attempts (line 321):
`Operation failed after N attempts: cause`. -/
def retryFailMsg (maxR : Nat) (lastErr : Option String) : String :=
  "Operation failed after " ++ toString maxR ++ " attempts: " ++ retryCause lastErr

/-- The attempt loop of `executeWithRetry` (lines 301-318), recursing on the
number of remaining attempts; the current attempt number is
`maxR - rem` when `rem + 1` attempts remain.  A delay is awaited only when
`attempt < maxRetries`, i.e. when further attempts remain. -/
def retryLoop {α : Type} (op : Nat → Except String α) (base maxD maxR : Nat) :
    Nat → Option String → Except String α × Nat × List Nat
  | 0, lastErr => (Except.error (retryFailMsg maxR lastErr), 0, [])
  | rem + 1, _ =>
      let attempt := maxR - rem
      match op attempt with
      | Except.ok v => (Except.ok v, 1, [])
      | Except.error e =>
          let r := retryLoop op base maxD maxR rem (some e)
          (r.1, r.2.1 + 1,
            (if 0 < rem then [calculateBackoffDelay attempt base maxD] else []) ++ r.2.2)

/-- Transcription of `executeWithRetry(operation, maxRetries)`
(concurrency-service.ts, lines 294-322), returning
(outcome, attempts performed, backoff delays in order). -/
def executeWithRetry {α : Type} (op : Nat → Except String α)
    (maxR base maxD : Nat) : Except String α × Nat × List Nat :=
  retryLoop op base maxD maxR maxR none

/-! ## Write queue (`core/concurrency-service.ts`, WriteQueueService)

A small-step event model of the single-flight queue and the two metrics
layers.  Events are the caller-visible suspension points of the JS event
loop:

* `enq e` — a caller invokes `enqueue` with an operation whose behaviour is
  abstracted by the `EntrySpec` `e` (how many attempts its body performs
  when run, whether it was submitted through `executeAtomicWithRetry`, and
  whether it ultimately succeeds).  `enqueue` pushes the wrapped operation
  and synchronously invokes `processQueue()`, which returns at once if the
  worker loop is active (`processing`) and otherwise becomes the worker:
  sets `processing`, shifts the queue head and begins executing it.
* `tick` — the running operation crosses its next asynchronous boundary:
  either it performs one more attempt (a retry iteration), or, when no
  attempt remains, it settles: the queue wrapper records the outcome in the
  queue metrics, the executor layers record it in the executor metrics
  (`executeWithRetry` records once and `executeAtomic` records once for a
  retry-wrapped entry; a plain `executeAtomic` entry is recorded once), and
  the worker loop shifts the next queued operation, or clears `processing`
  when the queue is empty.  Failure is caught by the loop's `try/catch`, so
  the continuation does not depend on the outcome.

Latency averages and wall-clock fields are outside the model; the counters
and `queueDepth` are modelled exactly.
-/

/-- Operation counters of a metrics layer (`ConcurrencyMetrics` without the
floating-point latency average and the wall-clock timestamp). -/
structure Metrics where
  totalOperations : Nat
  successfulOperations : Nat
  failedOperations : Nat
  queueDepth : Nat
deriving Repr, DecidableEq

/-- Transcription of `recordOperation(success, latency)` restricted to the
counters (both layers use the same update, lines 242-260 and 368-388). -/
def recordOperation (m : Metrics) (success : Bool) : Metrics :=
  { m with
    totalOperations := m.totalOperations + 1,
    successfulOperations := m.successfulOperations + (if success then 1 else 0),
    failedOperations := m.failedOperations + (if success then 0 else 1) }

/-- Behavioural abstraction of one enqueued operation: the number of
attempt steps its body performs when executed, whether it was submitted via
`executeAtomicWithRetry` (so `executeWithRetry` also records it), and its
final outcome. -/
structure EntrySpec where
  steps : Nat
  viaRetry : Bool
  succeeds : Bool
deriving Repr, DecidableEq

/-- A queued operation tagged with its unique (sequential) operation id. -/
structure Entry where
  id : Nat
  spec : EntrySpec
deriving Repr, DecidableEq

/-- Global state of the queue model.  `pending` is the `queue` array of
`WriteQueueService` (ops not yet started), `processing` its single-flight
flag, `running` the multiset of operations some worker invocation is
currently awaiting (kept as a list so that mutual exclusion is a theorem,
not a typing accident), `started` the ids in order of execution start,
`attemptTrace` the id of the executing entry per performed attempt, in
order, and `completed` the settled ids with their outcomes. -/
structure QS where
  pending : List Entry
  processing : Bool
  running : List (Entry × Nat)
  started : List Nat
  attemptTrace : List Nat
  completed : List (Nat × Bool)
  nextId : Nat
  queueMetrics : Metrics
  execMetrics : Metrics
deriving Repr, DecidableEq

/-- Fresh metrics (all counters zero). -/
def initMetrics : Metrics := ⟨0, 0, 0, 0⟩

/-- The initial state: empty queue, idle worker. -/
def initQS : QS := ⟨[], false, [], [], [], [], 0, initMetrics, initMetrics⟩

/-- Transcription of `updateQueueDepth()` (lines 238-240). -/
def updateQueueDepth (s : QS) : QS :=
  { s with queueMetrics := { s.queueMetrics with queueDepth := s.pending.length } }

/-- The push half of `enqueue(operation)` (lines 176-177): append the
wrapped entry, tagged with a fresh sequential operation id, and update the
depth. -/
def pushEntry (s : QS) (espec : EntrySpec) : QS :=
  updateQueueDepth
    { s with pending := s.pending ++ [⟨s.nextId, espec⟩], nextId := s.nextId + 1 }

/-- The worker's entry into the loop of `processQueue()` (lines 219-227)
when called with the single-flight flag clear: set `processing`, shift the
queue head, update the depth and begin executing it (a no-op on an empty
queue, line 215). -/
def startHead (s : QS) : QS :=
  match s.pending with
  | [] => s
  | h :: t =>
      updateQueueDepth
        { s with
          pending := t, processing := true,
          running := s.running ++ [(h, h.spec.steps)],
          started := s.started ++ [h.id] }

/-- Transcription of `enqueue(operation)` followed by its synchronous
`processQueue()` call (lines 153-180 and 214-236): push the wrapped entry,
and if a worker loop is already active (`processing`), return at once;
otherwise become the worker and start the head. -/
def stepEnq (s : QS) (espec : EntrySpec) : QS :=
  if (pushEntry s espec).processing then pushEntry s espec
  else startHead (pushEntry s espec)

/-- Settlement bookkeeping of the running operation: the queue wrapper
records the outcome (lines 160-171), the executor layers record it (lines
281-292; a retry-wrapped entry is also recorded by `executeWithRetry`,
lines 294-322), and the settled id is appended to the completion log. -/
def recordCompleted (s : QS) (e : Entry) : QS :=
  { s with
    completed := s.completed ++ [(e.id, e.spec.succeeds)],
    queueMetrics := recordOperation s.queueMetrics e.spec.succeeds,
    execMetrics :=
      if e.spec.viaRetry then
        recordOperation (recordOperation s.execMetrics e.spec.succeeds) e.spec.succeeds
      else recordOperation s.execMetrics e.spec.succeeds }

/-- The worker loop's continuation after the awaited operation settles
(lines 222-235): outcome recorded, failure swallowed by the loop's `catch`,
then the next head is shifted and started, or `processing` is cleared when
the queue is empty. -/
def completeAndContinue (s : QS) (e : Entry) : QS :=
  match (recordCompleted s e).pending with
  | [] => { recordCompleted s e with processing := false }
  | h :: t =>
      updateQueueDepth
        { recordCompleted s e with
          pending := t,
          running := [(h, h.spec.steps)],
          started := (recordCompleted s e).started ++ [h.id] }

/-- The running operation crosses its next asynchronous boundary: one more
attempt of its body, or settlement when no attempt remains. -/
def stepTick (s : QS) : QS :=
  match s.running with
  | [(e, Nat.succ k)] =>
      { s with running := [(e, k)], attemptTrace := s.attemptTrace ++ [e.id] }
  | [(e, 0)] => completeAndContinue { s with running := [] } e
  | _ => s

/-- Scheduler events: an external `enqueue` call, or progress of the running
operation. -/
inductive QEv where
  | enq (e : EntrySpec)
  | tick
deriving Repr, DecidableEq

/-- One scheduler step. -/
def stepQ (s : QS) : QEv → QS
  | QEv.enq e => stepEnq s e
  | QEv.tick => stepTick s

/-- Execution of an event sequence from the initial state. -/
def runQ (evs : List QEv) : QS := evs.foldl stepQ initQS

/-- Transcription of `getQueueDepth()` (lines 182-184): the length of the
`queue` array. -/
def getQueueDepth (s : QS) : Nat := s.pending.length

/-- Transcription of `ConcurrencyService.getMetrics()` (lines 333-351)
restricted to the modelled fields: executor and queue counters are summed,
`queueDepth` is taken from the queue layer. -/
def getMetrics (s : QS) : Metrics :=
  { totalOperations := s.execMetrics.totalOperations + s.queueMetrics.totalOperations,
    successfulOperations :=
      s.execMetrics.successfulOperations + s.queueMetrics.successfulOperations,
    failedOperations := s.execMetrics.failedOperations + s.queueMetrics.failedOperations,
    queueDepth := s.queueMetrics.queueDepth }

/-- Number of attempts the retry loop of `executeWithRetry` performs for an
operation whose per-attempt outcome is `op` under the bound `maxR`
(recursing on remaining attempts, current attempt = `maxR - rem`). -/
def retryCountGo (op : Nat → Bool) (maxR : Nat) : Nat → Nat
  | 0 => 0
  | rem + 1 => if op (maxR - rem) then 1 else retryCountGo op maxR rem + 1

/-- Whether the retry loop of `executeWithRetry` ultimately succeeds. -/
def retrySucceedsGo (op : Nat → Bool) (maxR : Nat) : Nat → Bool
  | 0 => false
  | rem + 1 => if op (maxR - rem) then true else retrySucceedsGo op maxR rem

/-- The queue-entry behaviour of `executeWithRetry(op, maxRetries)` run as
an operation body: its attempts and final outcome. -/
def executeWithRetryEntry (op : Nat → Bool) (maxR : Nat) : EntrySpec :=
  { steps := retryCountGo op maxR maxR, viaRetry := true,
    succeeds := retrySucceedsGo op maxR maxR }

/-- `executeAtomic(operation)` (lines 281-292) submits the operation to the
write queue unmodified, as a single queue entry. -/
def executeAtomicEntry (body : EntrySpec) : EntrySpec := body

/-- Transcription of `executeAtomicWithRetry(operation, maxRetries)` (lines
324-331): `executeAtomic` applied to the function that runs
`executeWithRetry(operation, maxRetries)`. -/
def executeAtomicWithRetryEntry (op : Nat → Bool) (maxR : Nat) : EntrySpec :=
  executeAtomicEntry (executeWithRetryEntry op maxR)

/-! ## Queue invariants -/

theorem updateQueueDepth_pending (s : QS) : (updateQueueDepth s).pending = s.pending := rfl

theorem updateQueueDepth_processing (s : QS) :
    (updateQueueDepth s).processing = s.processing := rfl

theorem updateQueueDepth_running (s : QS) : (updateQueueDepth s).running = s.running := rfl

theorem updateQueueDepth_started (s : QS) : (updateQueueDepth s).started = s.started := rfl

theorem updateQueueDepth_attemptTrace (s : QS) :
    (updateQueueDepth s).attemptTrace = s.attemptTrace := rfl

theorem updateQueueDepth_nextId (s : QS) : (updateQueueDepth s).nextId = s.nextId := rfl

/-- The inductive invariant of the queue model: the started ids followed by
the queued ids enumerate all issued ids in order (FIFO), an idle worker
flag means nothing is executing, at most one operation is executing, every
attempt belongs to a started operation, the executing operation is the most
recently started one, and the attempt trace is monotone (attempts of
different operations never interleave). -/
structure QInv (s : QS) : Prop where
  ids : s.started ++ s.pending.map Entry.id = List.range s.nextId
  idle : s.processing = false → s.running = []
  mutex : s.running.length ≤ 1
  traceMem : ∀ x ∈ s.attemptTrace, x < s.started.length
  runBound : ∀ ek ∈ s.running, ek.1.id + 1 = s.started.length
  sortedTrace : List.Pairwise (fun a b : Nat => a ≤ b) s.attemptTrace

theorem head_id_of_append_range {l₁ : List Nat} {a : Nat} {l₂ : List Nat}
    {n : Nat} (h : l₁ ++ a :: l₂ = List.range n) : a = l₁.length := by
  have hlt : l₁.length < n := by
    have hlen := congrArg List.length h
    simp at hlen
    omega
  have h1 : (l₁ ++ a :: l₂)[l₁.length]? = some a := by
    rw [List.getElem?_append_right (le_refl _)]
    simp
  rw [h, List.getElem?_range hlt] at h1
  exact (Option.some_inj.mp h1).symm

theorem qinv_started_range (s : QS) (h : QInv s) :
    s.started = List.range s.started.length := by
  have hids := h.ids
  have hlen : s.started.length ≤ s.nextId := by
    have hl := congrArg List.length hids
    simp at hl
    omega
  calc s.started
      = (s.started ++ s.pending.map Entry.id).take s.started.length :=
        (List.take_left _ _).symm
    _ = (List.range s.nextId).take s.started.length := by rw [hids]
    _ = List.range (min s.started.length s.nextId) :=
        List.take_range _ _
    _ = List.range s.started.length := by rw [min_eq_left hlen]

theorem qinv_initQS : QInv initQS := by
  constructor <;> simp [initQS]

theorem pushEntry_processing (s : QS) (espec : EntrySpec) :
    (pushEntry s espec).processing = s.processing := rfl

theorem startHead_nil (s : QS) (h : s.pending = []) : startHead s = s := by
  unfold startHead
  rw [h]

theorem startHead_cons (s : QS) (hd : Entry) (tl : List Entry)
    (h : s.pending = hd :: tl) :
    startHead s =
      updateQueueDepth
        { s with
          pending := tl, processing := true,
          running := s.running ++ [(hd, hd.spec.steps)],
          started := s.started ++ [hd.id] } := by
  unfold startHead
  rw [h]

theorem qinv_pushEntry (s : QS) (espec : EntrySpec) (h : QInv s) :
    QInv (pushEntry s espec) := by
  constructor
  · show s.started ++ (s.pending ++ [Entry.mk s.nextId espec]).map Entry.id =
      List.range (s.nextId + 1)
    rw [List.map_append, List.range_succ, ← List.append_assoc, h.ids]
    rfl
  · exact fun hp => h.idle hp
  · exact h.mutex
  · exact h.traceMem
  · exact h.runBound
  · exact h.sortedTrace

theorem qinv_startHead (s : QS) (h : QInv s) (hrun : s.running = []) :
    QInv (startHead s) := by
  rcases hq : s.pending with _ | ⟨hd, tl⟩
  · rw [startHead_nil s hq]
    exact h
  · rw [startHead_cons s hd tl hq]
    have hids1 : s.started ++ hd.id :: tl.map Entry.id = List.range s.nextId := by
      have hh := h.ids
      rw [hq] at hh
      simpa using hh
    have hhd : hd.id = s.started.length := head_id_of_append_range hids1
    constructor
    · show (s.started ++ [hd.id]) ++ tl.map Entry.id = List.range s.nextId
      rw [List.append_assoc]
      simpa using hids1
    · intro hpf
      have hpf2 : true = false := hpf
      simp at hpf2
    · show (s.running ++ [(hd, hd.spec.steps)]).length ≤ 1
      rw [hrun]
      simp
    · intro x hx
      have := h.traceMem x hx
      show x < (s.started ++ [hd.id]).length
      simp only [List.length_append, List.length_singleton]
      omega
    · intro ek hek
      show ek.1.id + 1 = (s.started ++ [hd.id]).length
      have hek2 : ek ∈ s.running ++ [(hd, hd.spec.steps)] := hek
      rw [hrun] at hek2
      simp only [List.nil_append, List.mem_singleton] at hek2
      subst hek2
      simp [hhd]
    · exact h.sortedTrace

theorem qinv_stepEnq (s : QS) (espec : EntrySpec) (h : QInv s) :
    QInv (stepEnq s espec) := by
  unfold stepEnq
  by_cases hp : (pushEntry s espec).processing = true
  · rw [if_pos hp]
    exact qinv_pushEntry s espec h
  · rw [if_neg hp]
    refine qinv_startHead _ (qinv_pushEntry s espec h) ?_
    show s.running = []
    refine h.idle ?_
    rw [pushEntry_processing] at hp
    revert hp
    cases s.processing <;> simp

theorem qinv_completeAndContinue (s : QS) (e : Entry) (h : QInv s)
    (hrun : s.running = []) (hproc : s.processing = true) :
    QInv (completeAndContinue s e) := by
  unfold completeAndContinue
  rcases hq : s.pending with _ | ⟨hd, tl⟩
  · have hq' : (recordCompleted s e).pending = [] := hq
    rw [hq']
    constructor
    · show s.started ++ s.pending.map Entry.id = List.range s.nextId
      exact h.ids
    · intro _
      exact hrun
    · exact h.mutex
    · exact h.traceMem
    · exact h.runBound
    · exact h.sortedTrace
  · have hq' : (recordCompleted s e).pending = hd :: tl := hq
    rw [hq']
    have hids1 : s.started ++ hd.id :: tl.map Entry.id = List.range s.nextId := by
      have hh := h.ids
      rw [hq] at hh
      simpa using hh
    have hhd : hd.id = s.started.length := head_id_of_append_range hids1
    constructor
    · show (s.started ++ [hd.id]) ++ tl.map Entry.id = List.range s.nextId
      rw [List.append_assoc]
      simpa using hids1
    · intro hpf
      have hpf' : s.processing = false := hpf
      rw [hproc] at hpf'
      simp at hpf'
    · show ([(hd, hd.spec.steps)] : List (Entry × Nat)).length ≤ 1
      simp
    · intro x hx
      have := h.traceMem x hx
      show x < (s.started ++ [hd.id]).length
      simp only [List.length_append, List.length_singleton]
      omega
    · intro ek hek
      show ek.1.id + 1 = (s.started ++ [hd.id]).length
      have hek2 : ek ∈ ([(hd, hd.spec.steps)] : List (Entry × Nat)) := hek
      simp only [List.mem_singleton] at hek2
      subst hek2
      simp [hhd]
    · exact h.sortedTrace

theorem qinv_stepTick (s : QS) (h : QInv s) : QInv (stepTick s) := by
  unfold stepTick
  rcases hr : s.running with _ | ⟨⟨e, k⟩, rest⟩
  · exact h
  · rcases rest with _ | ⟨e2, rest2⟩
    · have heid : e.id + 1 = s.started.length := h.runBound (e, k) (by rw [hr]; simp)
      rcases k with _ | k
      · -- settlement: the entry is removed from `running` and the worker
        -- continues with the next queued entry
        have hproc : s.processing = true := by
          by_contra hpf
          have hri := h.idle (by revert hpf; cases s.processing <;> simp)
          rw [hr] at hri
          simp at hri
        refine qinv_completeAndContinue { s with running := [] } e ?_ rfl hproc
        constructor
        · exact h.ids
        · intro _
          rfl
        · show ([] : List (Entry × Nat)).length ≤ 1
          simp
        · exact h.traceMem
        · intro ek hek
          simp at hek
        · exact h.sortedTrace
      · -- one more attempt of the running entry
        constructor
        · exact h.ids
        · intro hpf
          have hri := h.idle hpf
          rw [hr] at hri
          simp at hri
        · show ([(e, k)] : List (Entry × Nat)).length ≤ 1
          simp
        · intro x hx
          simp only [List.mem_append, List.mem_singleton] at hx
          show x < s.started.length
          rcases hx with hx | hx
          · exact h.traceMem x hx
          · subst hx
            omega
        · intro ek hek
          show ek.1.id + 1 = s.started.length
          simp only [List.mem_singleton] at hek
          subst hek
          exact heid
        · show List.Pairwise (fun a b : Nat => a ≤ b)
            (s.attemptTrace ++ [e.id])
          rw [List.pairwise_append]
          refine ⟨h.sortedTrace, List.pairwise_singleton _ _, ?_⟩
          intro a ha b hb
          simp only [List.mem_singleton] at hb
          subst hb
          have := h.traceMem a ha
          omega
    · -- two simultaneously running operations never occur; the step is the
      -- identity on such (unreachable) states
      rcases k with _ | k <;> exact h

theorem qinv_foldl (evs : List QEv) :
    ∀ s : QS, QInv s → QInv (evs.foldl stepQ s) := by
  induction evs with
  | nil => exact fun s hs => hs
  | cons ev rest ih =>
      intro s hs
      refine ih _ ?_
      cases ev with
      | enq e => exact qinv_stepEnq s e hs
      | tick => exact qinv_stepTick s hs

/-- Every reachable state of the queue model satisfies the invariant. -/
theorem qinv_runQ (evs : List QEv) : QInv (runQ evs) :=
  qinv_foldl evs initQS qinv_initQS

/-! ## Characterisation of the retry loop -/

theorem retryLoop_attempts_le {α : Type} (op : Nat → Except String α)
    (base maxD maxR : Nat) :
    ∀ f lastErr, (retryLoop op base maxD maxR f lastErr).2.1 ≤ f := by
  intro f
  induction f with
  | zero => intro lastErr; simp [retryLoop]
  | succ g ih =>
      intro lastErr
      cases hop : op (maxR - g) with
      | ok v => simp [retryLoop, hop]
      | error e =>
          have := ih (some e)
          simp only [retryLoop, hop]
          simp
          omega

theorem retryLoop_success {α : Type} (op : Nat → Except String α)
    (base maxD maxR : Nat) :
    ∀ f, f ≤ maxR → ∀ lastErr a v,
      maxR - f < a → a ≤ maxR →
      (∀ i, maxR - f < i → i < a → ∃ e, op i = Except.error e) →
      op a = Except.ok v →
      retryLoop op base maxD maxR f lastErr =
        (Except.ok v, a - (maxR - f),
          (List.range' (maxR - f + 1) (a - 1 - (maxR - f))).map
            (fun i => calculateBackoffDelay i base maxD)) := by
  intro f
  induction f with
  | zero =>
      intro _ lastErr a v ha1 ha2 _ _
      exfalso
      omega
  | succ g ih =>
      intro hfm lastErr a v ha1 ha2 hfail hok
      by_cases hcase : a = maxR - g
      · subst hcase
        simp only [retryLoop, hok]
        have h1 : maxR - g - (maxR - (g + 1)) = 1 := by omega
        have h2 : maxR - g - 1 - (maxR - (g + 1)) = 0 := by omega
        rw [h1, h2]
        simp
      · have ha1' : maxR - g < a := by omega
        obtain ⟨e, he⟩ := hfail (maxR - g) (by omega) (by omega)
        have hg : 0 < g := by omega
        simp only [retryLoop, he]
        rw [ih (by omega) (some e) a v ha1' ha2
          (fun i h1 h2 => hfail i (by omega) h2) hok]
        have h3 : maxR - (g + 1) + 1 = maxR - g := by omega
        have h4 : a - 1 - (maxR - (g + 1)) = (a - 1 - (maxR - g)) + 1 := by omega
        have hc : a - (maxR - g) + 1 = a - (maxR - (g + 1)) := by omega
        rw [h3, h4, List.range'_succ]
        simp only [if_pos hg, List.map_cons]
        have h5 : maxR - g + 1 = maxR - g + 1 := rfl
        simp [hc]

theorem retryLoop_failAll {α : Type} (op : Nat → Except String α)
    (base maxD maxR : Nat) (err : Nat → String) :
    ∀ f, 1 ≤ f → f ≤ maxR →
      (∀ i, maxR - f < i → i ≤ maxR → op i = Except.error (err i)) →
      ∀ lastErr,
      retryLoop op base maxD maxR f lastErr =
        (Except.error (retryFailMsg maxR (some (err maxR))), f,
          (List.range' (maxR - f + 1) (f - 1)).map
            (fun i => calculateBackoffDelay i base maxD)) := by
  intro f
  induction f with
  | zero => intro h1; exact absurd h1 (by omega)
  | succ g ih =>
      intro _ hfm hfail lastErr
      have he : op (maxR - g) = Except.error (err (maxR - g)) :=
        hfail _ (by omega) (by omega)
      simp only [retryLoop, he]
      rcases Nat.eq_zero_or_pos g with hg | hg
      · subst hg
        have hmr : maxR - 0 = maxR := by omega
        simp [retryLoop, hmr]
      · rw [ih (by omega) (by omega)
          (fun i h1 h2 => hfail i (by omega) h2) (some (err (maxR - g)))]
        have h3 : maxR - (g + 1) + 1 = maxR - g := by omega
        have h4 : g + 1 - 1 = (g - 1) + 1 := by omega
        rw [h3, h4, List.range'_succ]
        simp only [if_pos hg, List.map_cons]
        simp

/-! ## Evaluation lemmas for the storage operations -/

theorem mem_keys_eraseKey {α : Type} (m : List (String × α)) (k a : String)
    (h : a ∈ (eraseKey m k).map Prod.fst) : a ∈ m.map Prod.fst := by
  induction m with
  | nil => simp [eraseKey] at h
  | cons kv rest ih =>
      obtain ⟨k', v'⟩ := kv
      by_cases hk : k = k'
      · subst hk
        simp only [eraseKey, if_pos rfl] at h
        exact List.mem_cons_of_mem _ (ih h)
      · simp only [eraseKey, if_neg hk, List.map_cons, List.mem_cons] at h ⊢
        rcases h with h | h
        · exact Or.inl h
        · exact Or.inr (ih h)

theorem nodupKeys_eraseKey {α : Type} (m : List (String × α)) (k : String)
    (h : NodupKeys m) : NodupKeys (eraseKey m k) := by
  induction m with
  | nil => simpa [eraseKey] using h
  | cons kv rest ih =>
      obtain ⟨k', v'⟩ := kv
      simp only [NodupKeys, List.map_cons, List.nodup_cons] at h
      by_cases hk : k = k'
      · subst hk
        simpa [eraseKey] using ih h.2
      · have hrest := ih h.2
        simp only [NodupKeys, eraseKey, if_neg hk, List.map_cons, List.nodup_cons]
        exact ⟨fun hc => h.1 (mem_keys_eraseKey rest k k' hc), hrest⟩

theorem readPromptsMap_eval_mapVal (s : St) (m : PMap)
    (h : s.prompts = PVal.mapVal m) : readPromptsMap s = (Except.ok (some m), s) := by
  unfold readPromptsMap
  rw [h]

theorem writePromptsMap_eval_merge (s : St) (n m : PMap)
    (h : s.prompts = PVal.mapVal m) :
    writePromptsMap n false s =
      (Except.ok (), { s with prompts := PVal.mapVal (jsMerge m n) }) := by
  unfold writePromptsMap
  rw [if_neg (by simp)]
  rw [h]

theorem writePromptsMap_eval_replace (s : St) (n : PMap) :
    writePromptsMap n true s =
      (Except.ok (), { s with prompts := PVal.mapVal n }) := rfl

theorem readContextsMap_eval_mapVal (s : St) (m : CMap)
    (h : s.contexts = CVal.mapVal m) : readContextsMap s = (Except.ok (some m), s) := by
  unfold readContextsMap
  rw [h]

theorem writeContextsMap_eval_merge (s : St) (n m : CMap)
    (h : s.contexts = CVal.mapVal m) :
    writeContextsMap n false s =
      (Except.ok (), { s with contexts := CVal.mapVal (jsMerge m n) }) := by
  unfold writeContextsMap
  rw [if_neg (by simp)]
  rw [h]

theorem writeContextsMap_eval_replace (s : St) (n : CMap) :
    writeContextsMap n true s =
      (Except.ok (), { s with contexts := CVal.mapVal n }) := rfl

theorem resolveCreatedAt_carried (prevCA pCA : Option Nat) (c : Nat)
    (h : prevCA = some c) (hc : c ≠ 0) (s : St) :
    resolveCreatedAt prevCA pCA s = (Except.ok c, s) := by
  simp only [resolveCreatedAt, truthyNat, h, if_neg hc]
  rfl

theorem resolveCreatedAt_fresh (prevCA pCA : Option Nat)
    (h1 : truthyNat prevCA = none) (h2 : truthyNat pCA = none) (s : St) :
    resolveCreatedAt prevCA pCA s =
      (Except.ok (s.times.headD 0), { s with times := s.times.tail }) := by
  unfold resolveCreatedAt
  rw [h1, h2]
  rfl

theorem savePromptBody_eval (p : Prompt) (id : String) (s s1 : St) (m : PMap)
    (ca : Nat) (hs : s.prompts = PVal.mapVal m) (hm : NodupKeys m)
    (hres : resolveCreatedAt ((lookupKey m id).bind PromptRecord.createdAt)
      p.createdAt s = (Except.ok ca, s1))
    (hs1 : s1.prompts = PVal.mapVal m) :
    savePromptBody p id s =
      (Except.ok none,
        { s1 with
          prompts := PVal.mapVal (jsMerge m (setKey m id
            { id := id, name := p.name, template := p.template,
              description := some p.description, createdAt := some ca,
              updatedAt := some (s1.times.headD 0) })),
          times := s1.times.tail }) := by
  have hlook : lookupKey (jsMerge m (setKey m id
      { id := id, name := p.name, template := p.template,
        description := some p.description, createdAt := some ca,
        updatedAt := some (s1.times.headD 0) })) id =
      some
        { id := id, name := p.name, template := p.template,
          description := some p.description, createdAt := some ca,
          updatedAt := some (s1.times.headD 0) } := by
    rw [lookupKey_jsMerge _ _ _ (nodupKeys_setKey m id _ hm)]
    rw [lookupKey_setKey_self]
  simp only [savePromptBody, run_bind, readPromptsMap_eval_mapVal s m hs,
    asObject, run_pure, hres, getNow]
  rw [writePromptsMap_eval_merge _ _ m (by simpa using hs1)]
  dsimp only
  rw [readPromptsMap_eval_mapVal _ _ rfl]
  dsimp only
  simp only [asObject, run_pure, hlook]

theorem saveContextBody_eval (c : Context) (id : String) (s s1 : St) (m : CMap)
    (ca : Nat) (hs : s.contexts = CVal.mapVal m) (hm : NodupKeys m)
    (hres : resolveCreatedAt ((lookupKey m id).bind ContextRecord.createdAt)
      c.createdAt s = (Except.ok ca, s1))
    (hs1 : s1.contexts = CVal.mapVal m) :
    saveContextBody c id s =
      (Except.ok none,
        { s1 with
          contexts := CVal.mapVal (jsMerge m (setKey m id
            { id := id, name := c.name, text := c.text,
              createdAt := some ca,
              updatedAt := some (s1.times.headD 0) })),
          times := s1.times.tail }) := by
  have hlook : lookupKey (jsMerge m (setKey m id
      { id := id, name := c.name, text := c.text, createdAt := some ca,
        updatedAt := some (s1.times.headD 0) })) id =
      some
        { id := id, name := c.name, text := c.text, createdAt := some ca,
          updatedAt := some (s1.times.headD 0) } := by
    rw [lookupKey_jsMerge _ _ _ (nodupKeys_setKey m id _ hm)]
    rw [lookupKey_setKey_self]
  simp only [saveContextBody, run_bind, readContextsMap_eval_mapVal s m hs,
    asObject, run_pure, hres, getNow]
  rw [writeContextsMap_eval_merge _ _ m (by simpa using hs1)]
  dsimp only
  rw [readContextsMap_eval_mapVal _ _ rfl]
  dsimp only
  simp only [asObject, run_pure, hlook]

theorem savePromptGo_first_success (p : Prompt) (id : String) (n : Nat)
    (lastErr : Option String) (s s' : St)
    (h : savePromptBody p id s = (Except.ok none, s')) :
    savePromptGo p id (n + 1) lastErr s = (Except.ok (), s') := by
  simp only [savePromptGo, run_bind, run_mtry, h, run_pure]

theorem saveContextGo_first_success (c : Context) (id : String) (n : Nat)
    (lastErr : Option String) (s s' : St)
    (h : saveContextBody c id s = (Except.ok none, s')) :
    saveContextGo c id (n + 1) lastErr s = (Except.ok (), s') := by
  simp only [saveContextGo, run_bind, run_mtry, h, run_pure]

theorem savePrompt_eval (p : Prompt) (hid : p.id ≠ "") (s : St) :
    savePrompt p s = savePromptGo p p.id 3 none s := by
  simp only [savePrompt, run_bind, if_neg hid, run_pure]

theorem saveContext_eval (c : Context) (hid : c.id ≠ "") (s : St) :
    saveContext c s = saveContextGo c c.id 3 none s := by
  simp only [saveContext, run_bind, if_neg hid, run_pure]

theorem executeAtomicWithRetryM_first_success {α : Type} (body : M α)
    (s s' : St) (a : α) (h : body s = (Except.ok a, s')) :
    executeAtomicWithRetryM body s = (Except.ok a, s') := by
  simp only [executeAtomicWithRetryM, retryGo, run_mtry, h]

theorem savePromptAtomicOp_eval (p : Prompt) (hid : p.id ≠ "") (s s1 : St)
    (m : PMap) (ca : Nat) (hs : s.prompts = PVal.mapVal m) (hm : NodupKeys m)
    (hres : resolveCreatedAt ((lookupKey m p.id).bind PromptRecord.createdAt)
      p.createdAt s = (Except.ok ca, s1))
    (hs1 : s1.prompts = PVal.mapVal m) :
    savePromptAtomicOp p s =
      (Except.ok (),
        { s1 with
          prompts := PVal.mapVal (jsMerge m (setKey m p.id
            { id := p.id, name := p.name, template := p.template,
              description := some p.description, createdAt := some ca,
              updatedAt := some (s1.times.headD 0) })),
          times := s1.times.tail }) := by
  have hlook : lookupKey (jsMerge m (setKey m p.id
      { id := p.id, name := p.name, template := p.template,
        description := some p.description, createdAt := some ca,
        updatedAt := some (s1.times.headD 0) })) p.id =
      some
        { id := p.id, name := p.name, template := p.template,
          description := some p.description, createdAt := some ca,
          updatedAt := some (s1.times.headD 0) } := by
    rw [lookupKey_jsMerge _ _ _ (nodupKeys_setKey m p.id _ hm)]
    rw [lookupKey_setKey_self]
  simp only [savePromptAtomicOp, run_bind, if_neg hid, run_pure,
    readPromptsMap_eval_mapVal s m hs, asObject, hres, getNow]
  rw [writePromptsMap_eval_merge _ _ m (by simpa using hs1)]
  dsimp only
  rw [readPromptsMap_eval_mapVal _ _ rfl]
  dsimp only
  simp only [asObject, run_pure, hlook]

theorem saveContextAtomicOp_eval (c : Context) (hid : c.id ≠ "") (s s1 : St)
    (m : CMap) (ca : Nat) (hs : s.contexts = CVal.mapVal m) (hm : NodupKeys m)
    (hres : resolveCreatedAt ((lookupKey m c.id).bind ContextRecord.createdAt)
      c.createdAt s = (Except.ok ca, s1))
    (hs1 : s1.contexts = CVal.mapVal m) :
    saveContextAtomicOp c s =
      (Except.ok (),
        { s1 with
          contexts := CVal.mapVal (jsMerge m (setKey m c.id
            { id := c.id, name := c.name, text := c.text,
              createdAt := some ca,
              updatedAt := some (s1.times.headD 0) })),
          times := s1.times.tail }) := by
  have hlook : lookupKey (jsMerge m (setKey m c.id
      { id := c.id, name := c.name, text := c.text, createdAt := some ca,
        updatedAt := some (s1.times.headD 0) })) c.id =
      some
        { id := c.id, name := c.name, text := c.text, createdAt := some ca,
          updatedAt := some (s1.times.headD 0) } := by
    rw [lookupKey_jsMerge _ _ _ (nodupKeys_setKey m c.id _ hm)]
    rw [lookupKey_setKey_self]
  simp only [saveContextAtomicOp, run_bind, if_neg hid, run_pure,
    readContextsMap_eval_mapVal s m hs, asObject, hres, getNow]
  rw [writeContextsMap_eval_merge _ _ m (by simpa using hs1)]
  dsimp only
  rw [readContextsMap_eval_mapVal _ _ rfl]
  dsimp only
  simp only [asObject, run_pure, hlook]

/-! ## Concrete fixtures used by the closed theorems -/

/-- A stored prompt record with id `p1`. -/
def rec1 : PromptRecord :=
  { id := "p1", name := "n1", template := "t1", description := some "d1",
    createdAt := some 5, updatedAt := some 5 }

/-- A stored context record with id `c1`. -/
def crec1 : ContextRecord :=
  { id := "c1", name := "n1", text := "x1", createdAt := some 5, updatedAt := some 5 }

/-- A world whose prompts map holds `p1` and whose contexts map holds `c1`. -/
def st0 : St :=
  { prompts := PVal.mapVal [("p1", rec1)],
    contexts := CVal.mapVal [("c1", crec1)],
    console := [], times := [100, 101, 102, 103], ids := ["i1", "i2"] }

/-! ## Claim theorems -/

/-- Claim C1.  The claim states that EVERY delete operation (`deletePrompt`,
`deleteContext`, `deletePromptAtomic`, `deleteContextAtomic`) performs a
replace-write and, on success, leaves no entry for the deleted id.  The code
violates this for the non-atomic variants: `deletePrompt`/`deleteContext`
call `writePromptsMap(map)`/`writeContextsMap(map)` with the `replace`
parameter defaulting to `false`, i.e. a MERGE write, so the stored map (which
still holds the deleted key) is merged over the caller's map and the key
survives; the post-write verification then fails on every one of the three
attempts and the call rejects with "delete did not persist, retrying".  This
theorem evaluates the model at the failing input: with `p1` present,
`deletePrompt "p1"` rejects and leaves the entry in the persisted map (and
likewise `deleteContext "c1"`), whereas the atomic variants replace-write and
remove the entry as the claim demands. -/
theorem C1_nonatomic_delete_merge_write_bug :
    (deletePrompt "p1" st0).1 =
      Except.error "deletePrompt failed after retries: delete did not persist, retrying" ∧
    (deletePrompt "p1" st0).2.prompts = PVal.mapVal [("p1", rec1)] ∧
    (deleteContext "c1" st0).1 =
      Except.error "deleteContext failed after retries: delete did not persist, retrying" ∧
    (deleteContext "c1" st0).2.contexts = CVal.mapVal [("c1", crec1)] ∧
    (deletePromptAtomic "p1" st0).1 = Except.ok () ∧
    (deletePromptAtomic "p1" st0).2.prompts = PVal.mapVal [] ∧
    (deleteContextAtomic "c1" st0).1 = Except.ok () ∧
    (deleteContextAtomic "c1" st0).2.contexts = CVal.mapVal [] := by
  refine ⟨rfl, rfl, rfl, rfl, rfl, rfl, rfl, rfl⟩

/-- Claim C8.  Deleting an absent id is a successful no-op for all four
delete operations, and the atomic variants moreover survive a double delete
(second call a no-op) — but the claim fails for the NON-atomic variants on a
present id: because of the merge-write bug (see C1), the FIRST
`deletePrompt` of a present id already rejects, so "deleting the same id
twice in succession succeeds both times" does not hold for them.  The
rejection message is the aggregate retry error, never a "not found" error. -/
theorem C8_delete_idempotence_bug :
    (deletePromptAtomic "p1" st0).1 = Except.ok () ∧
    (deletePromptAtomic "p1" (deletePromptAtomic "p1" st0).2).1 = Except.ok () ∧
    (deletePromptAtomic "p1" (deletePromptAtomic "p1" st0).2).2.prompts =
      PVal.mapVal [] ∧
    (deleteContextAtomic "c1" st0).1 = Except.ok () ∧
    (deleteContextAtomic "c1" (deleteContextAtomic "c1" st0).2).1 = Except.ok () ∧
    (deletePromptAtomic "zz" st0).1 = Except.ok () ∧
    (deletePromptAtomic "zz" st0).2 = st0 ∧
    (deleteContextAtomic "zz" st0).1 = Except.ok () ∧
    (deletePrompt "zz" st0).1 = Except.ok () ∧
    (deleteContext "zz" st0).1 = Except.ok () ∧
    (deletePrompt "p1" st0).1 =
      Except.error "deletePrompt failed after retries: delete did not persist, retrying" := by
  refine ⟨rfl, rfl, rfl, rfl, rfl, rfl, rfl, rfl, rfl, rfl, rfl⟩

/-- A world whose two backing keys hold the JS `null` value. -/
def stNull : St :=
  { prompts := PVal.nullVal, contexts := CVal.nullVal,
    console := [], times := [], ids := [] }

/-- A world whose two backing keys hold a primitive (boolean, number or
string). -/
def stPrim : St :=
  { prompts := PVal.prim, contexts := CVal.prim,
    console := [], times := [], ids := [] }

/-- A world whose two backing keys are unset. -/
def stAbsent : St :=
  { prompts := PVal.absent, contexts := CVal.absent,
    console := [], times := [], ids := [] }

/-- Claim C2, counterexample.  A stored JS `null` is a possible backing
value that is neither an object map of records nor an array, yet the read
does NOT log a warning and return an empty map for it: `null` passes the
`typeof val === 'object' && !Array.isArray(val)` check (JS `typeof null` is
`'object'`) and is resolved as-is (modelled by `none`), with nothing
written to the console.  This falsifies the claim's "if the value is
neither an object-map nor an array it logs a warning and returns an empty
map" at the concrete backing value `null`. -/
theorem C2_null_backing_counterexample :
    readPromptsMap stNull = (Except.ok none, stNull) ∧
    ((Except.ok none : Except String (Option PMap)), stNull) ≠
      ((Except.ok (some []) : Except String (Option PMap)), stNull) ∧
    (readPromptsMap stNull).2.console = [] ∧
    readContextsMap stNull = (Except.ok none, stNull) ∧
    ((Except.ok none : Except String (Option CMap)), stNull) ≠
      ((Except.ok (some []) : Except String (Option CMap)), stNull) ∧
    (readContextsMap stNull).2.console = [] := by
  refine ⟨rfl, by decide, rfl, rfl, by decide, rfl⟩

theorem writePromptsMap_ok (n : PMap) (repl : Bool) (s : St) :
    ∃ s', writePromptsMap n repl s = (Except.ok (), s') := by
  cases repl
  · exact ⟨_, rfl⟩
  · exact ⟨_, rfl⟩

theorem writeContextsMap_ok (n : CMap) (repl : Bool) (s : St) :
    ∃ s', writeContextsMap n repl s = (Except.ok (), s') := by
  cases repl
  · exact ⟨_, rfl⟩
  · exact ⟨_, rfl⟩

theorem migratePromptItem_ok (acc : PMap) (item : PLegacy) (s : St) :
    ∃ v s', migratePromptItem acc item s = (Except.ok v, s') := by
  by_cases hid : item.id = "" <;>
    rcases hca : truthyNat item.createdAt with _ | cc <;>
      simp only [migratePromptItem, run_bind, run_pure, makeId, getNow, hid, hca,
        if_true, if_false, reduceIte] <;>
      exact ⟨_, _, rfl⟩

theorem migrateContextItem_ok (acc : CMap) (item : CLegacy) (s : St) :
    ∃ v s', migrateContextItem acc item s = (Except.ok v, s') := by
  by_cases hid : item.id = "" <;>
    rcases hca : truthyNat item.createdAt with _ | cc <;>
      simp only [migrateContextItem, run_bind, run_pure, makeId, getNow, hid, hca,
        if_true, if_false, reduceIte] <;>
      exact ⟨_, _, rfl⟩

theorem foldlM_migratePromptItem_ok (items : List PLegacy) :
    ∀ (acc : PMap) (s : St),
      ∃ mm s', List.foldlM migratePromptItem acc items s = (Except.ok mm, s') := by
  induction items with
  | nil => exact fun acc s => ⟨acc, s, rfl⟩
  | cons i is ih =>
      intro acc s
      obtain ⟨v, s', hv⟩ := migratePromptItem_ok acc i s
      obtain ⟨mm, s'', hm⟩ := ih v s'
      exact ⟨mm, s'', by simp only [List.foldlM_cons, run_bind, hv, hm]⟩

theorem foldlM_migrateContextItem_ok (items : List CLegacy) :
    ∀ (acc : CMap) (s : St),
      ∃ mm s', List.foldlM migrateContextItem acc items s = (Except.ok mm, s') := by
  induction items with
  | nil => exact fun acc s => ⟨acc, s, rfl⟩
  | cons i is ih =>
      intro acc s
      obtain ⟨v, s', hv⟩ := migrateContextItem_ok acc i s
      obtain ⟨mm, s'', hm⟩ := ih v s'
      exact ⟨mm, s'', by simp only [List.foldlM_cons, run_bind, hv, hm]⟩

theorem readPromptsMap_ok (s : St) :
    ∃ v s', readPromptsMap s = (Except.ok v, s') := by
  rcases hp : s.prompts with _ | _ | _ | items | m
  · exact ⟨some [], s, by unfold readPromptsMap; rw [hp]⟩
  · exact ⟨none, s, by unfold readPromptsMap; rw [hp]⟩
  · exact ⟨some [], _, by unfold readPromptsMap; rw [hp]⟩
  · obtain ⟨mm, s', hm⟩ := foldlM_migratePromptItem_ok items [] s
    obtain ⟨s'', hw⟩ := writePromptsMap_ok mm false s'
    refine ⟨some mm, s'', ?_⟩
    unfold readPromptsMap
    rw [hp]
    simp only [run_bind, hm, hw, run_pure]
  · exact ⟨some m, s, by unfold readPromptsMap; rw [hp]⟩

theorem readContextsMap_ok (s : St) :
    ∃ v s', readContextsMap s = (Except.ok v, s') := by
  rcases hp : s.contexts with _ | _ | _ | items | m
  · exact ⟨some [], s, by unfold readContextsMap; rw [hp]⟩
  · exact ⟨none, s, by unfold readContextsMap; rw [hp]⟩
  · exact ⟨some [], _, by unfold readContextsMap; rw [hp]⟩
  · obtain ⟨mm, s', hm⟩ := foldlM_migrateContextItem_ok items [] s
    obtain ⟨s'', hw⟩ := writeContextsMap_ok mm false s'
    refine ⟨some mm, s'', ?_⟩
    unfold readContextsMap
    rw [hp]
    simp only [run_bind, hm, hw, run_pure]
  · exact ⟨some m, s, by unfold readContextsMap; rw [hp]⟩

/-- Claim C2, amended.  For every possible backing value, the store reads
`readPromptsMap`/`readContextsMap` never reject under fault-free I/O: an
absent key resolves the empty map; a primitive backing value (boolean,
number or string) logs the shape warning and resolves the empty map; a
legacy array is migrated; but a stored JS `null` — although it is not a map
of records — passes the `typeof` object check and is resolved as-is
(modelled `none`), without a warning and without being replaced by an empty
map.  (The claim as frozen asserts the warning-and-empty-map fallback for
every non-map non-array value; `null` is the exception the code makes.) -/
theorem C2_read_shape_handling_amended (s : St) :
    (∃ v s', readPromptsMap s = (Except.ok v, s')) ∧
    (∃ v s', readContextsMap s = (Except.ok v, s')) ∧
    (s.prompts = PVal.absent → readPromptsMap s = (Except.ok (some []), s)) ∧
    (s.prompts = PVal.prim →
      readPromptsMap s =
        (Except.ok (some []), { s with console := s.console ++ [promptsWarn] })) ∧
    (s.prompts = PVal.nullVal → readPromptsMap s = (Except.ok none, s)) ∧
    (s.contexts = CVal.absent → readContextsMap s = (Except.ok (some []), s)) ∧
    (s.contexts = CVal.prim →
      readContextsMap s =
        (Except.ok (some []), { s with console := s.console ++ [contextsWarn] })) ∧
    (s.contexts = CVal.nullVal → readContextsMap s = (Except.ok none, s)) := by
  refine ⟨readPromptsMap_ok s, readContextsMap_ok s, ?_, ?_, ?_, ?_, ?_, ?_⟩ <;>
    intro h
  · unfold readPromptsMap; rw [h]
  · unfold readPromptsMap; rw [h]
  · unfold readPromptsMap; rw [h]
  · unfold readContextsMap; rw [h]
  · unfold readContextsMap; rw [h]
  · unfold readContextsMap; rw [h]

/-- Witness for C2: the amended read-shape theorem applied at concrete
worlds with an absent, a primitive and a null backing value. -/
theorem C2_read_shape_handling_witness :
    readPromptsMap stAbsent = (Except.ok (some []), stAbsent) ∧
    readPromptsMap stPrim =
      (Except.ok (some []), { stPrim with console := [promptsWarn] }) ∧
    readContextsMap stNull = (Except.ok none, stNull) := by
  refine ⟨(C2_read_shape_handling_amended stAbsent).2.2.1 rfl, ?_,
    (C2_read_shape_handling_amended stNull).2.2.2.2.2.2.2 rfl⟩
  exact (C2_read_shape_handling_amended stPrim).2.2.2.1 rfl

theorem nodupKeys_jsMerge {α : Type} (n : List (String × α)) :
    ∀ current : List (String × α), NodupKeys current →
      NodupKeys (jsMerge current n) := by
  induction n with
  | nil => exact fun current h => h
  | cons kv rest ih =>
      intro current h
      exact ih (setKey current kv.1 kv.2) (nodupKeys_setKey current kv.1 kv.2 h)

/-- A stored record whose `createdAt` is the (falsy) timestamp `0`. -/
def recZero : PromptRecord :=
  { id := "p1", name := "n1", template := "t1", description := some "d1",
    createdAt := some 0, updatedAt := some 0 }

/-- A world holding `recZero` under `p1`. -/
def stZero : St :=
  { prompts := PVal.mapVal [("p1", recZero)], contexts := CVal.mapVal [],
    console := [], times := [100, 101], ids := [] }

/-- A save payload targeting the existing id `p1` and carrying its own
`createdAt` of `9`. -/
def pSave : Prompt :=
  { id := "p1", name := "n2", template := "t2", description := "d2",
    createdAt := some 9, updatedAt := none }

/-- Claim C3, counterexample.  The record stored under `p1` has
`createdAt = 0`; a save targeting `p1` must, per the claim, carry that
`createdAt` forward unchanged.  But the code computes
`prev?.createdAt || prompt.createdAt || Date.now()` with JS truthiness, so
the falsy `0` is discarded and the caller-supplied `9` wins: after the save
the stored record's `createdAt` is `9`, not the existing `0`. -/
theorem C3_zero_createdAt_counterexample :
    (savePrompt pSave stZero).1 = Except.ok () ∧
    (savePrompt pSave stZero).2.prompts =
      PVal.mapVal [("p1",
        { id := "p1", name := "n2", template := "t2", description := some "d2",
          createdAt := some 9, updatedAt := some 100 })] ∧
    (some 9 : Option Nat) ≠ some 0 := by
  refine ⟨rfl, rfl, by decide⟩

theorem savePrompt_carried_eval (p : Prompt) (s : St) (m : PMap)
    (rcd : PromptRecord) (c t : Nat) (rest : List Nat)
    (hid : p.id ≠ "") (hs : s.prompts = PVal.mapVal m) (hm : NodupKeys m)
    (hlk : lookupKey m p.id = some rcd) (hca : rcd.createdAt = some c)
    (hc : c ≠ 0) (ht : s.times = t :: rest) :
    savePrompt p s =
      (Except.ok (),
        { s with
          prompts := PVal.mapVal (jsMerge m (setKey m p.id
            { id := p.id, name := p.name, template := p.template,
              description := some p.description, createdAt := some c,
              updatedAt := some t })),
          times := rest }) := by
  have hbind : (lookupKey m p.id).bind PromptRecord.createdAt = some c := by
    rw [hlk]
    simpa using hca
  have hres := resolveCreatedAt_carried _ p.createdAt c hbind hc s
  have hbody := savePromptBody_eval p p.id s s m c hs hm hres hs
  rw [ht] at hbody
  simp only [List.headD_cons, List.tail_cons] at hbody
  rw [savePrompt_eval p hid s,
    savePromptGo_first_success p p.id 2 none s _ hbody]

theorem savePromptAtomic_carried_eval (p : Prompt) (s : St) (m : PMap)
    (rcd : PromptRecord) (c t : Nat) (rest : List Nat)
    (hid : p.id ≠ "") (hs : s.prompts = PVal.mapVal m) (hm : NodupKeys m)
    (hlk : lookupKey m p.id = some rcd) (hca : rcd.createdAt = some c)
    (hc : c ≠ 0) (ht : s.times = t :: rest) :
    savePromptAtomic p s =
      (Except.ok (),
        { s with
          prompts := PVal.mapVal (jsMerge m (setKey m p.id
            { id := p.id, name := p.name, template := p.template,
              description := some p.description, createdAt := some c,
              updatedAt := some t })),
          times := rest }) := by
  have hbind : (lookupKey m p.id).bind PromptRecord.createdAt = some c := by
    rw [hlk]
    simpa using hca
  have hres := resolveCreatedAt_carried _ p.createdAt c hbind hc s
  have hop := savePromptAtomicOp_eval p hid s s m c hs hm hres hs
  rw [ht] at hop
  simp only [List.headD_cons, List.tail_cons] at hop
  exact executeAtomicWithRetryM_first_success _ s _ () hop

theorem saveContext_carried_eval (cx : Context) (s : St) (m : CMap)
    (rcd : ContextRecord) (c t : Nat) (rest : List Nat)
    (hid : cx.id ≠ "") (hs : s.contexts = CVal.mapVal m) (hm : NodupKeys m)
    (hlk : lookupKey m cx.id = some rcd) (hca : rcd.createdAt = some c)
    (hc : c ≠ 0) (ht : s.times = t :: rest) :
    saveContext cx s =
      (Except.ok (),
        { s with
          contexts := CVal.mapVal (jsMerge m (setKey m cx.id
            { id := cx.id, name := cx.name, text := cx.text,
              createdAt := some c, updatedAt := some t })),
          times := rest }) := by
  have hbind : (lookupKey m cx.id).bind ContextRecord.createdAt = some c := by
    rw [hlk]
    simpa using hca
  have hres := resolveCreatedAt_carried _ cx.createdAt c hbind hc s
  have hbody := saveContextBody_eval cx cx.id s s m c hs hm hres hs
  rw [ht] at hbody
  simp only [List.headD_cons, List.tail_cons] at hbody
  rw [saveContext_eval cx hid s,
    saveContextGo_first_success cx cx.id 2 none s _ hbody]

theorem saveContextAtomic_carried_eval (cx : Context) (s : St) (m : CMap)
    (rcd : ContextRecord) (c t : Nat) (rest : List Nat)
    (hid : cx.id ≠ "") (hs : s.contexts = CVal.mapVal m) (hm : NodupKeys m)
    (hlk : lookupKey m cx.id = some rcd) (hca : rcd.createdAt = some c)
    (hc : c ≠ 0) (ht : s.times = t :: rest) :
    saveContextAtomic cx s =
      (Except.ok (),
        { s with
          contexts := CVal.mapVal (jsMerge m (setKey m cx.id
            { id := cx.id, name := cx.name, text := cx.text,
              createdAt := some c, updatedAt := some t })),
          times := rest }) := by
  have hbind : (lookupKey m cx.id).bind ContextRecord.createdAt = some c := by
    rw [hlk]
    simpa using hca
  have hres := resolveCreatedAt_carried _ cx.createdAt c hbind hc s
  have hop := saveContextAtomicOp_eval cx hid s s m c hs hm hres hs
  rw [ht] at hop
  simp only [List.headD_cons, List.tail_cons] at hop
  exact executeAtomicWithRetryM_first_success _ s _ () hop

theorem savePrompt_fresh_eval (p : Prompt) (s : St) (m : PMap)
    (t1 t2 : Nat) (rest : List Nat)
    (hid : p.id ≠ "") (hp : p.createdAt = none)
    (hs : s.prompts = PVal.mapVal m) (hm : NodupKeys m)
    (hlk : lookupKey m p.id = none) (ht : s.times = t1 :: t2 :: rest) :
    savePrompt p s =
      (Except.ok (),
        { s with
          prompts := PVal.mapVal (jsMerge m (setKey m p.id
            { id := p.id, name := p.name, template := p.template,
              description := some p.description, createdAt := some t1,
              updatedAt := some t2 })),
          times := rest }) := by
  have hbind : (lookupKey m p.id).bind PromptRecord.createdAt = none := by
    rw [hlk]
    rfl
  have hres := resolveCreatedAt_fresh
    ((lookupKey m p.id).bind PromptRecord.createdAt) p.createdAt
    (by rw [hbind]; rfl) (by rw [hp]; rfl) s
  rw [ht] at hres
  simp only [List.headD_cons, List.tail_cons] at hres
  have hbody := savePromptBody_eval p p.id s { s with times := t2 :: rest }
    m t1 hs hm (by rw [hres]) hs
  simp only [List.headD_cons, List.tail_cons] at hbody
  rw [savePrompt_eval p hid s,
    savePromptGo_first_success p p.id 2 none s _ hbody]

theorem lookupKey_save_self {α : Type} (m : List (String × α)) (k : String)
    (r : α) (hm : NodupKeys m) :
    lookupKey (jsMerge m (setKey m k r)) k = some r := by
  rw [lookupKey_jsMerge _ _ _ (nodupKeys_setKey m k r hm), lookupKey_setKey_self]

theorem lookupKey_save_other {α : Type} (m : List (String × α)) (k : String)
    (r : α) (hm : NodupKeys m) (j : String) (hj : j ≠ k) :
    lookupKey (jsMerge m (setKey m k r)) j = lookupKey m j := by
  rw [lookupKey_jsMerge _ _ _ (nodupKeys_setKey m k r hm),
    lookupKey_setKey_other m k j r hj]
  cases hlj : lookupKey m j <;> simp

/-- Claim C3, amended.  For a record id present in the map whose stored
`createdAt` is present and NONZERO, every save path (`savePrompt`,
`savePromptAtomic`, `saveContext`, `saveContextAtomic`) carries that
`createdAt` forward unchanged and stamps a fresh `updatedAt` (the next
`Date.now()` value), leaving every other id untouched; and two successive
saves of the same id preserve the `createdAt` established by the first save
provided the first save's timestamp is nonzero.  (The claim as frozen holds
only up to the truthiness caveat refuted by the counterexample: a stored
`createdAt` of `0` — or an absent one — is not carried forward.) -/
theorem C3_createdAt_preserved_amended :
    (∀ (p : Prompt) (s : St) (m : PMap) (rcd : PromptRecord) (c t : Nat)
        (rest : List Nat),
      p.id ≠ "" → s.prompts = PVal.mapVal m → NodupKeys m →
      lookupKey m p.id = some rcd → rcd.createdAt = some c → c ≠ 0 →
      s.times = t :: rest →
      ∃ m', savePrompt p s =
          (Except.ok (), { s with prompts := PVal.mapVal m', times := rest }) ∧
        lookupKey m' p.id = some
          { id := p.id, name := p.name, template := p.template,
            description := some p.description, createdAt := some c,
            updatedAt := some t } ∧
        ∀ j, j ≠ p.id → lookupKey m' j = lookupKey m j) ∧
    (∀ (p : Prompt) (s : St) (m : PMap) (rcd : PromptRecord) (c t : Nat)
        (rest : List Nat),
      p.id ≠ "" → s.prompts = PVal.mapVal m → NodupKeys m →
      lookupKey m p.id = some rcd → rcd.createdAt = some c → c ≠ 0 →
      s.times = t :: rest →
      ∃ m', savePromptAtomic p s =
          (Except.ok (), { s with prompts := PVal.mapVal m', times := rest }) ∧
        lookupKey m' p.id = some
          { id := p.id, name := p.name, template := p.template,
            description := some p.description, createdAt := some c,
            updatedAt := some t } ∧
        ∀ j, j ≠ p.id → lookupKey m' j = lookupKey m j) ∧
    (∀ (cx : Context) (s : St) (m : CMap) (rcd : ContextRecord) (c t : Nat)
        (rest : List Nat),
      cx.id ≠ "" → s.contexts = CVal.mapVal m → NodupKeys m →
      lookupKey m cx.id = some rcd → rcd.createdAt = some c → c ≠ 0 →
      s.times = t :: rest →
      ∃ m', saveContext cx s =
          (Except.ok (), { s with contexts := CVal.mapVal m', times := rest }) ∧
        lookupKey m' cx.id = some
          { id := cx.id, name := cx.name, text := cx.text,
            createdAt := some c, updatedAt := some t } ∧
        ∀ j, j ≠ cx.id → lookupKey m' j = lookupKey m j) ∧
    (∀ (cx : Context) (s : St) (m : CMap) (rcd : ContextRecord) (c t : Nat)
        (rest : List Nat),
      cx.id ≠ "" → s.contexts = CVal.mapVal m → NodupKeys m →
      lookupKey m cx.id = some rcd → rcd.createdAt = some c → c ≠ 0 →
      s.times = t :: rest →
      ∃ m', saveContextAtomic cx s =
          (Except.ok (), { s with contexts := CVal.mapVal m', times := rest }) ∧
        lookupKey m' cx.id = some
          { id := cx.id, name := cx.name, text := cx.text,
            createdAt := some c, updatedAt := some t } ∧
        ∀ j, j ≠ cx.id → lookupKey m' j = lookupKey m j) ∧
    (∀ (p : Prompt) (s : St) (m : PMap) (t1 t2 t3 : Nat) (rest : List Nat),
      p.id ≠ "" → p.createdAt = none → s.prompts = PVal.mapVal m →
      NodupKeys m → lookupKey m p.id = none →
      s.times = t1 :: t2 :: t3 :: rest → 0 < t1 →
      (savePrompt p s).1 = Except.ok () ∧
      ∃ m'', (savePrompt p (savePrompt p s).2).1 = Except.ok () ∧
        (savePrompt p (savePrompt p s).2).2.prompts = PVal.mapVal m'' ∧
        lookupKey m'' p.id = some
          { id := p.id, name := p.name, template := p.template,
            description := some p.description, createdAt := some t1,
            updatedAt := some t3 }) := by
  refine ⟨?_, ?_, ?_, ?_, ?_⟩
  · intro p s m rcd c t rest hid hs hm hlk hca hc ht
    exact ⟨_, savePrompt_carried_eval p s m rcd c t rest hid hs hm hlk hca hc ht,
      lookupKey_save_self m p.id _ hm, lookupKey_save_other m p.id _ hm⟩
  · intro p s m rcd c t rest hid hs hm hlk hca hc ht
    exact ⟨_,
      savePromptAtomic_carried_eval p s m rcd c t rest hid hs hm hlk hca hc ht,
      lookupKey_save_self m p.id _ hm, lookupKey_save_other m p.id _ hm⟩
  · intro cx s m rcd c t rest hid hs hm hlk hca hc ht
    exact ⟨_, saveContext_carried_eval cx s m rcd c t rest hid hs hm hlk hca hc ht,
      lookupKey_save_self m cx.id _ hm, lookupKey_save_other m cx.id _ hm⟩
  · intro cx s m rcd c t rest hid hs hm hlk hca hc ht
    exact ⟨_,
      saveContextAtomic_carried_eval cx s m rcd c t rest hid hs hm hlk hca hc ht,
      lookupKey_save_self m cx.id _ hm, lookupKey_save_other m cx.id _ hm⟩
  · intro p s m t1 t2 t3 rest hid hp hs hm hlk ht ht1
    have hsave1 := savePrompt_fresh_eval p s m t1 t2 (t3 :: rest) hid hp hs hm hlk ht
    have hm1 : NodupKeys (jsMerge m (setKey m p.id
        { id := p.id, name := p.name, template := p.template,
          description := some p.description, createdAt := some t1,
          updatedAt := some t2 })) :=
      nodupKeys_jsMerge _ m hm
    have hlk1 := lookupKey_save_self m p.id
      { id := p.id, name := p.name, template := p.template,
        description := some p.description, createdAt := some t1,
        updatedAt := some t2 } hm
    refine ⟨by rw [hsave1], _, ?_, ?_, lookupKey_save_self _ p.id _ hm1⟩
    · rw [hsave1]
      rw [savePrompt_carried_eval p _ _ _ t1 t3 rest hid rfl hm1 hlk1 rfl
        (by omega) rfl]
    · rw [hsave1]
      rw [savePrompt_carried_eval p _ _ _ t1 t3 rest hid rfl hm1 hlk1 rfl
        (by omega) rfl]

/-- Witness for C3: the amended theorem applied at a concrete world (stored
record `p1` with `createdAt = 5`), for the non-atomic save, the atomic
save, and the double-save clause. -/
theorem C3_createdAt_preserved_witness :
    (∃ m', savePrompt pSave st0 =
        (Except.ok (), { st0 with prompts := PVal.mapVal m', times := [101, 102, 103] }) ∧
      lookupKey m' "p1" = some
        { id := "p1", name := "n2", template := "t2", description := some "d2",
          createdAt := some 5, updatedAt := some 100 } ∧
      ∀ j, j ≠ "p1" → lookupKey m' j = lookupKey [("p1", rec1)] j) ∧
    (∃ m', savePromptAtomic pSave st0 =
        (Except.ok (), { st0 with prompts := PVal.mapVal m', times := [101, 102, 103] }) ∧
      lookupKey m' "p1" = some
        { id := "p1", name := "n2", template := "t2", description := some "d2",
          createdAt := some 5, updatedAt := some 100 } ∧
      ∀ j, j ≠ "p1" → lookupKey m' j = lookupKey [("p1", rec1)] j) := by
  constructor
  · exact C3_createdAt_preserved_amended.1 pSave st0 [("p1", rec1)] rec1 5 100
      [101, 102, 103] (by decide) rfl (by unfold NodupKeys; decide) rfl rfl
      (by decide) rfl
  · exact C3_createdAt_preserved_amended.2.1 pSave st0 [("p1", rec1)] rec1 5 100
      [101, 102, 103] (by decide) rfl (by unfold NodupKeys; decide) rfl rfl
      (by decide) rfl

instance promptLE_total (m : PMap) : IsTotal Prompt (promptLE m) :=
  ⟨fun a b => by
    unfold promptLE
    rcases lt_trichotomy (promptKey m a) (promptKey m b) with h | h | h
    · exact Or.inl (Or.inl h)
    · rcases idLe_total a.id b.id with hle | hle
      · exact Or.inl (Or.inr ⟨h, hle⟩)
      · exact Or.inr (Or.inr ⟨h.symm, hle⟩)
    · exact Or.inr (Or.inl h)⟩

instance promptLE_trans (m : PMap) : IsTrans Prompt (promptLE m) :=
  ⟨fun a b c hab hbc => by
    unfold promptLE at *
    rcases hab with h1 | ⟨h1, h1'⟩ <;> rcases hbc with h2 | ⟨h2, h2'⟩
    · exact Or.inl (lt_trans h1 h2)
    · exact Or.inl (h2 ▸ h1)
    · exact Or.inl (h1 ▸ h2)
    · exact Or.inr ⟨h1.trans h2, idLe_trans h1' h2'⟩⟩

instance contextLE_total (m : CMap) : IsTotal Context (contextLE m) :=
  ⟨fun a b => by
    unfold contextLE
    rcases lt_trichotomy (contextKey m a) (contextKey m b) with h | h | h
    · exact Or.inl (Or.inl h)
    · rcases idLe_total a.id b.id with hle | hle
      · exact Or.inl (Or.inr ⟨h, hle⟩)
      · exact Or.inr (Or.inr ⟨h.symm, hle⟩)
    · exact Or.inr (Or.inl h)⟩

instance contextLE_trans (m : CMap) : IsTrans Context (contextLE m) :=
  ⟨fun a b c hab hbc => by
    unfold contextLE at *
    rcases hab with h1 | ⟨h1, h1'⟩ <;> rcases hbc with h2 | ⟨h2, h2'⟩
    · exact Or.inl (lt_trans h1 h2)
    · exact Or.inl (h2 ▸ h1)
    · exact Or.inl (h1 ▸ h2)
    · exact Or.inr ⟨h1.trans h2, idLe_trans h1' h2'⟩⟩

/-- Three prompt records with `createdAt` timestamps 3, 1, 2 (in stored
order), exercising the ordering example of the claim. -/
def mOrd : PMap :=
  [("a", { id := "a", name := "na", template := "ta", description := none,
           createdAt := some 3, updatedAt := none }),
   ("b", { id := "b", name := "nb", template := "tb", description := none,
           createdAt := some 1, updatedAt := none }),
   ("c", { id := "c", name := "nc", template := "tc", description := none,
           createdAt := some 2, updatedAt := none })]

/-- Two prompt records with EQUAL `createdAt`, stored in non-lexical order,
exercising the id tie-break. -/
def mTie : PMap :=
  [("b", { id := "b", name := "nb", template := "tb", description := none,
           createdAt := some 1, updatedAt := none }),
   ("a", { id := "a", name := "na", template := "ta", description := none,
           createdAt := some 1, updatedAt := none })]

/-- Claim C4.  `getPrompts`/`getContexts` return the records sorted by the
comparator relation of the source — ascending `createdAt` (as looked up in
the map, `?? 0` for a missing timestamp), ties broken by id lexical order —
for EVERY map; the calls are deterministic: on a map-shaped backing value
the call returns the pure sort of the map and leaves the state unchanged,
so two calls on an unchanged map return identical lists; and on the
concrete map with `createdAt` values `[3, 1, 2]` the returned order's
timestamps are `[1, 2, 3]` (ids `["b", "c", "a"]`), with equal timestamps
ordered by id. -/
theorem C4_sorted_deterministic :
    (∀ m : PMap, List.Sorted (promptLE m) (sortedPrompts m)) ∧
    (∀ m : CMap, List.Sorted (contextLE m) (sortedContexts m)) ∧
    (∀ (s : St) (m : PMap), s.prompts = PVal.mapVal m →
      getPrompts s = (Except.ok (sortedPrompts m), s)) ∧
    (∀ (s : St) (m : CMap), s.contexts = CVal.mapVal m →
      getContexts s = (Except.ok (sortedContexts m), s)) ∧
    (sortedPrompts mOrd).map (fun a => promptKey mOrd a) = [1, 2, 3] ∧
    (sortedPrompts mOrd).map Prompt.id = ["b", "c", "a"] ∧
    (sortedPrompts mTie).map Prompt.id = ["a", "b"] := by
  refine ⟨?_, ?_, ?_, ?_, by decide, by decide, by decide⟩
  · intro m
    exact List.sorted_insertionSort (promptLE m) _
  · intro m
    exact List.sorted_insertionSort (contextLE m) _
  · intro s m hs
    simp only [getPrompts, run_bind, readPromptsMap_eval_mapVal s m hs,
      asObject, run_pure]
  · intro s m hs
    simp only [getContexts, run_bind, readContextsMap_eval_mapVal s m hs,
      asObject, run_pure]

/-- Witness for C4: the deterministic-read clauses applied at the concrete
world `st0`. -/
theorem C4_sorted_deterministic_witness :
    getPrompts st0 = (Except.ok (sortedPrompts [("p1", rec1)]), st0) ∧
    getContexts st0 = (Except.ok (sortedContexts [("c1", crec1)]), st0) :=
  ⟨C4_sorted_deterministic.2.2.1 st0 [("p1", rec1)] rfl,
   C4_sorted_deterministic.2.2.2.1 st0 [("c1", crec1)] rfl⟩

/-- Claim C5, counterexample.  When every attempt fails, the rejection
message produced by `executeWithRetry` is
`"Operation failed after N attempts: <cause>"` — the word is "attempts" (and
the message is capitalised), not the claimed
`"operation failed after N retries: <cause>"`.  Evaluated at an operation
that always fails with "boom" under `maxRetries = 2`, `baseDelay = 10`,
`maxDelay = 1000`. -/
theorem C5_retry_message_counterexample :
    executeWithRetry (fun _ => (Except.error "boom" : Except String Unit)) 2 10 1000 =
      (Except.error "Operation failed after 2 attempts: boom", 2, [10]) ∧
    ("Operation failed after 2 attempts: boom" : String) ≠
      "operation failed after 2 retries: boom" := by
  refine ⟨rfl, by decide⟩

/-- Claim C5, amended.  `executeWithRetry(op, maxRetries)` attempts `op` at
most `maxRetries` times; between consecutive attempts it waits
`calculateBackoffDelay(attempt) = min(baseDelay * 2^(attempt-1), maxDelay)`
(the returned delay list is exactly the backoff of attempts `1..k-1` when
`k` attempts were made); it resolves with `op`'s result on the first
successful attempt; and if every attempt fails it rejects with an error of
the form `"Operation failed after N attempts: <cause>"` — not
"... N retries ..." as the claim as frozen words it — where `N` is the
configured bound and `<cause>` is the last underlying failure's message
(`"Unknown error"` if that message is empty). -/
theorem C5_executeWithRetry_amended :
    (∀ (α : Type) (op : Nat → Except String α) (maxR base maxD : Nat),
      (executeWithRetry op maxR base maxD).2.1 ≤ maxR) ∧
    (∀ (α : Type) (op : Nat → Except String α) (maxR base maxD a : Nat) (v : α),
      1 ≤ a → a ≤ maxR →
      (∀ i, 1 ≤ i → i < a → ∃ e, op i = Except.error e) →
      op a = Except.ok v →
      executeWithRetry op maxR base maxD =
        (Except.ok v, a,
          (List.range' 1 (a - 1)).map (fun i => calculateBackoffDelay i base maxD))) ∧
    (∀ (α : Type) (op : Nat → Except String α) (maxR base maxD : Nat)
        (err : Nat → String),
      1 ≤ maxR →
      (∀ i, 1 ≤ i → i ≤ maxR → op i = Except.error (err i)) →
      executeWithRetry op maxR base maxD =
        (Except.error ("Operation failed after " ++ toString maxR ++
            " attempts: " ++ retryCause (some (err maxR))), maxR,
          (List.range' 1 (maxR - 1)).map
            (fun i => calculateBackoffDelay i base maxD))) := by
  refine ⟨?_, ?_, ?_⟩
  · intro α op maxR base maxD
    exact retryLoop_attempts_le op base maxD maxR maxR none
  · intro α op maxR base maxD a v ha1 ha2 hfail hok
    have h := retryLoop_success op base maxD maxR maxR (le_refl maxR) none a v
      (by omega) ha2 (fun i h1 h2 => hfail i (by omega) h2) hok
    simpa [Nat.sub_self] using h
  · intro α op maxR base maxD err hmr hfail
    have h := retryLoop_failAll op base maxD maxR err maxR hmr (le_refl maxR)
      (fun i h1 h2 => hfail i (by omega) h2) none
    simpa [Nat.sub_self, retryFailMsg] using h

/-- Witness for C5: the amended theorem applied at an operation that first
succeeds on attempt 2 (one backoff of `min(5*2^0, 8) = 5` awaited) and at
an operation that always fails (delays `[5, 8]`, aggregate message naming
3 attempts and the last cause). -/
theorem C5_executeWithRetry_witness :
    executeWithRetry (fun i => if i = 2 then Except.ok 42 else Except.error "nope") 3 5 8 =
      (Except.ok 42, 2, [5]) ∧
    executeWithRetry (fun _ => (Except.error "boom" : Except String Nat)) 3 5 8 =
      (Except.error "Operation failed after 3 attempts: boom", 3, [5, 8]) := by
  constructor
  · have h := C5_executeWithRetry_amended.2.1 Nat
      (fun i => if i = 2 then Except.ok 42 else Except.error "nope") 3 5 8 2 42
      (by omega) (by omega)
      (fun i h1 h2 => ⟨"nope", by
        have hi : i = 1 := by omega
        subst hi
        rfl⟩)
      rfl
    rw [h]
    decide
  · have h := C5_executeWithRetry_amended.2.2 Nat
      (fun _ => (Except.error "boom" : Except String Nat)) 3 5 8 (fun _ => "boom")
      (by omega) (fun i h1 h2 => rfl)
    rw [h]
    decide

/-- Claim C6.  `executeAtomicWithRetry(op, maxRetries)` is `executeAtomic`
applied to the function that runs `executeWithRetry(op, maxRetries)` — the
entire retry loop is submitted as ONE queue entry — and consequently the
attempts (including retries) of any two distinct queue entries never
interleave: the attempt trace of every reachable state contains no
`[a, b, a]` pattern with `a ≠ b` as a sublist. -/
theorem C6_atomic_retry_composition :
    (∀ (op : Nat → Bool) (maxR : Nat),
      executeAtomicWithRetryEntry op maxR =
        executeAtomicEntry (executeWithRetryEntry op maxR)) ∧
    (∀ (evs : List QEv) (a b : Nat), a ≠ b →
      ¬ List.Sublist [a, b, a] (runQ evs).attemptTrace) := by
  constructor
  · intro op maxR
    rfl
  · intro evs a b hab hsub
    have hpw : List.Pairwise (fun x y : Nat => x ≤ y) [a, b, a] :=
      (qinv_runQ evs).sortedTrace.sublist hsub
    have hab' : a ≤ b :=
      List.rel_of_pairwise_cons hpw (List.mem_cons_self b [a])
    have hba : b ≤ a :=
      List.rel_of_pairwise_cons (List.Pairwise.of_cons hpw)
        (List.mem_cons_self a [])
    exact hab (le_antisymm hab' hba)

/-- Witness for C6: the composition identity at a concrete operation, and
no-interleaving at a concrete schedule (two retry entries of two attempts
each, fully executed). -/
theorem C6_atomic_retry_composition_witness :
    executeAtomicWithRetryEntry (fun _ => true) 3 =
      executeAtomicEntry (executeWithRetryEntry (fun _ => true) 3) ∧
    ¬ List.Sublist [0, 1, 0]
      (runQ [QEv.enq ⟨2, true, true⟩, QEv.enq ⟨2, true, true⟩, QEv.tick,
        QEv.tick, QEv.tick, QEv.tick, QEv.tick, QEv.tick]).attemptTrace :=
  ⟨C6_atomic_retry_composition.1 (fun _ => true) 3,
   C6_atomic_retry_composition.2
     [QEv.enq ⟨2, true, true⟩, QEv.enq ⟨2, true, true⟩, QEv.tick,
       QEv.tick, QEv.tick, QEv.tick, QEv.tick, QEv.tick] 0 1 (by decide)⟩

/-- Claim C7.  In every reachable state of the queue model, at most one
enqueued operation is executing (the single-flight `processing` flag is the
mutual-exclusion mechanism, proved as an invariant, not assumed); the
operations begin execution in FIFO order of their enqueue times (the list
of started ids is exactly `0, 1, 2, ...` — the enqueue order); and a
settling operation does not halt the queue regardless of its outcome: if
operations are still queued when the running operation settles (with
success or failure alike — the worker loop catches the failure), the next
queued operation starts executing in the same scheduler step. -/
theorem C7_queue_serialization :
    (∀ evs : List QEv, (runQ evs).running.length ≤ 1) ∧
    (∀ evs : List QEv, (runQ evs).started =
      List.range (runQ evs).started.length) ∧
    (∀ (evs : List QEv) (e hd : Entry) (tl : List Entry),
      (runQ evs).running = [(e, 0)] → (runQ evs).pending = hd :: tl →
      (stepTick (runQ evs)).started = (runQ evs).started ++ [hd.id] ∧
      (stepTick (runQ evs)).running = [(hd, hd.spec.steps)]) := by
  refine ⟨fun evs => (qinv_runQ evs).mutex,
    fun evs => qinv_started_range _ (qinv_runQ evs), ?_⟩
  intro evs e hd tl hr hp
  have h1 : stepTick (runQ evs) =
      completeAndContinue { runQ evs with running := [] } e := by
    unfold stepTick
    rw [hr]
  have hp' : (recordCompleted { runQ evs with running := [] } e).pending =
      hd :: tl := hp
  rw [h1]
  unfold completeAndContinue
  rw [hp']
  exact ⟨rfl, rfl⟩

/-- Witness for C7: the continuation clause applied at a concrete schedule
in which the running operation is about to settle with FAILURE while a
second operation waits: the waiting operation starts in the same step. -/
theorem C7_queue_serialization_witness :
    (stepTick (runQ [QEv.enq ⟨1, false, false⟩, QEv.enq ⟨1, false, true⟩,
        QEv.tick])).started =
      (runQ [QEv.enq ⟨1, false, false⟩, QEv.enq ⟨1, false, true⟩,
        QEv.tick]).started ++ [1] ∧
    (stepTick (runQ [QEv.enq ⟨1, false, false⟩, QEv.enq ⟨1, false, true⟩,
        QEv.tick])).running = [(⟨1, ⟨1, false, true⟩⟩, 1)] :=
  C7_queue_serialization.2.2
    [QEv.enq ⟨1, false, false⟩, QEv.enq ⟨1, false, true⟩, QEv.tick]
    ⟨0, ⟨1, false, false⟩⟩ ⟨1, ⟨1, false, true⟩⟩ [] (by decide) (by decide)

/-- Claim C9, counterexample.  With one operation in flight and one waiting,
`getQueueDepth()` returns 1, not 2: the in-flight operation was shifted off
the `queue` array before execution, so `queue.length` counts only the
waiting operations, contradicting the claim that the depth accounts for the
in-flight operation as well. -/
theorem C9_queue_depth_counterexample :
    (runQ [QEv.enq ⟨1, false, true⟩, QEv.enq ⟨1, false, true⟩]).running ≠ [] ∧
    (runQ [QEv.enq ⟨1, false, true⟩, QEv.enq ⟨1, false, true⟩]).pending.length = 1 ∧
    getQueueDepth (runQ [QEv.enq ⟨1, false, true⟩, QEv.enq ⟨1, false, true⟩]) = 1 ∧
    getQueueDepth (runQ [QEv.enq ⟨1, false, true⟩, QEv.enq ⟨1, false, true⟩]) ≠ 2 := by
  refine ⟨by decide, rfl, rfl, by decide⟩

/-- Claim C9, amended.  `getQueueDepth()` returns the number of enqueued
operations that have NOT yet started — the length of the `queue` array —
which excludes the in-flight operation: in every reachable state the depth
equals (number of ids issued) − (number of operations started), and the
executing operation is already among the started ones and no longer in the
queue. -/
theorem C9_queue_depth_amended :
    (∀ evs : List QEv, getQueueDepth (runQ evs) =
      (runQ evs).nextId - (runQ evs).started.length) ∧
    (∀ evs : List QEv, ∀ ek ∈ (runQ evs).running,
      ek.1.id ∈ (runQ evs).started ∧
      ek.1.id ∉ (runQ evs).pending.map Entry.id) := by
  constructor
  · intro evs
    have hids := (qinv_runQ evs).ids
    have hlen := congrArg List.length hids
    simp only [List.length_append, List.length_map, List.length_range] at hlen
    unfold getQueueDepth
    omega
  · intro evs ek hek
    have hinv := qinv_runQ evs
    have hids := hinv.ids
    have hnd : ((runQ evs).started ++ (runQ evs).pending.map Entry.id).Nodup := by
      rw [hids]
      exact List.nodup_range _
    have hdisj := (List.nodup_append.mp hnd).2.2
    have hrb := hinv.runBound ek hek
    have hmem : ek.1.id ∈ (runQ evs).started := by
      rw [qinv_started_range _ hinv, List.mem_range]
      omega
    exact ⟨hmem, fun hc => hdisj hmem hc⟩

/-- Witness for C9: the amended depth characterisation applied at the
concrete two-enqueue schedule (one in flight, one waiting): depth
`1 = 2 - 1`, and the in-flight operation is started and not queued. -/
theorem C9_queue_depth_witness :
    getQueueDepth (runQ [QEv.enq ⟨1, false, true⟩, QEv.enq ⟨1, false, true⟩]) =
      (runQ [QEv.enq ⟨1, false, true⟩, QEv.enq ⟨1, false, true⟩]).nextId -
        (runQ [QEv.enq ⟨1, false, true⟩, QEv.enq ⟨1, false, true⟩]).started.length ∧
    ((⟨0, ⟨1, false, true⟩⟩, 1) : Entry × Nat).1.id ∈
      (runQ [QEv.enq ⟨1, false, true⟩, QEv.enq ⟨1, false, true⟩]).started ∧
    ((⟨0, ⟨1, false, true⟩⟩, 1) : Entry × Nat).1.id ∉
      (runQ [QEv.enq ⟨1, false, true⟩,
        QEv.enq ⟨1, false, true⟩]).pending.map Entry.id :=
  ⟨C9_queue_depth_amended.1 [QEv.enq ⟨1, false, true⟩, QEv.enq ⟨1, false, true⟩],
   C9_queue_depth_amended.2 [QEv.enq ⟨1, false, true⟩, QEv.enq ⟨1, false, true⟩]
     (⟨0, ⟨1, false, true⟩⟩, 1) (by decide)⟩

/-- Claim C10, counterexample.  A single successful operation submitted
through `executeAtomicWithRetry` raises the combined `totalOperations` of
`getMetrics()` by 3, not 2: `executeWithRetry` records it once in the
executor metrics, the queue wrapper records it once in the queue metrics,
and `executeAtomic` records it once more in the executor metrics. -/
theorem C10_metrics_double_count_counterexample :
    (getMetrics (runQ [QEv.enq ⟨1, true, true⟩, QEv.tick, QEv.tick])).totalOperations
      = 3 ∧
    (3 : Nat) ≠ 2 := by
  refine ⟨rfl, by decide⟩

/-- Claim C10, amended.  When the running operation settles, the queue
wrapper's `recordOperation` raises the queue-level `totalOperations` by 1
and the executor-level `totalOperations` rises by 1 for a plain
`executeAtomic` submission but by 2 for an `executeAtomicWithRetry`
submission (whose `executeWithRetry` also records), so the combined
`getMetrics().totalOperations` — the sum of the two layers — rises by 2 for
a plain atomic operation and by 3 for an atomic-with-retry operation; a
single successful operation run end-to-end yields combined totals 2 and 3
respectively. -/
theorem C10_metrics_count_amended :
    (∀ (evs : List QEv) (e : Entry), (runQ evs).running = [(e, 0)] →
      (getMetrics (stepTick (runQ evs))).totalOperations =
        (getMetrics (runQ evs)).totalOperations +
          (if e.spec.viaRetry then 3 else 2) ∧
      (stepTick (runQ evs)).queueMetrics.totalOperations =
        (runQ evs).queueMetrics.totalOperations + 1 ∧
      (stepTick (runQ evs)).execMetrics.totalOperations =
        (runQ evs).execMetrics.totalOperations +
          (if e.spec.viaRetry then 2 else 1)) ∧
    (getMetrics (runQ [QEv.enq ⟨1, false, true⟩, QEv.tick, QEv.tick])).totalOperations
      = 2 ∧
    (getMetrics (runQ [QEv.enq ⟨1, true, true⟩, QEv.tick, QEv.tick])).totalOperations
      = 3 := by
  refine ⟨?_, rfl, rfl⟩
  intro evs e hr
  have h1 : stepTick (runQ evs) =
      completeAndContinue { runQ evs with running := [] } e := by
    unfold stepTick
    rw [hr]
  rw [h1]
  unfold completeAndContinue
  rcases hq : (recordCompleted { runQ evs with running := [] } e).pending
    with _ | ⟨hd, tl⟩ <;>
    cases hvr : e.spec.viaRetry <;>
    simp [getMetrics, recordCompleted, recordOperation, updateQueueDepth, hvr] <;>
    omega

/-- Witness for C10: the per-settlement count deltas applied at a concrete
schedule whose running retry-wrapped operation is about to settle. -/
theorem C10_metrics_count_witness :
    (getMetrics (stepTick (runQ [QEv.enq ⟨1, true, true⟩, QEv.tick]))).totalOperations =
      (getMetrics (runQ [QEv.enq ⟨1, true, true⟩, QEv.tick])).totalOperations + 3 ∧
    (stepTick (runQ [QEv.enq ⟨1, true, true⟩, QEv.tick])).queueMetrics.totalOperations =
      (runQ [QEv.enq ⟨1, true, true⟩, QEv.tick]).queueMetrics.totalOperations + 1 ∧
    (stepTick (runQ [QEv.enq ⟨1, true, true⟩, QEv.tick])).execMetrics.totalOperations =
      (runQ [QEv.enq ⟨1, true, true⟩, QEv.tick]).execMetrics.totalOperations + 2 :=
  C10_metrics_count_amended.1 [QEv.enq ⟨1, true, true⟩, QEv.tick]
    ⟨0, ⟨1, true, true⟩⟩ (by decide)

end StorageCore
